import Mathlib

/-!
Shallow embedding of the Markov model checker (the MarkovModel class of
src/markov.py) together with proofs about its behaviour.

Modelling conventions:
* Python numbers (int and float weights, probabilities, rewards) are embedded
  as exact rationals; the concrete divisions performed by the code
  (weight / total, reward mass / probability mass) are exact in both worlds.
* Python assertion failures, KeyError and the ValueError raised by
  random.choices are embedded with `Except String`; an `.ok` value is a normal
  return, an `.error` value is a raised exception.
* Python dictionaries are embedded as association lists (`List (key × value)`)
  with `dict_lookup`; the dictionaries built by comprehension over
  `self.states` iterate over `m.states.dedup` (the set of declared states),
  and every quantity read from them is a sum, so iteration order is
  irrelevant.
* The pseudo-random draw of `random.choices(..., k=1)[0]` is embedded with an
  oracle `pick : Nat -> Nat` choosing among the candidates of positive weight
  (a zero-weight candidate is never returned by the real implementation, and a
  non-positive total of weights raises ValueError).
-/

/-- `self.no_action_symbol`, set once in `__init__` and never changed. -/
def no_action_symbol : String := "*"

/-- A transition tuple `(from_state, to_state, action, weight)`. -/
structure Transition where
  from_state : String
  to_state : String
  action : String
  weight : ℚ
deriving DecidableEq, Repr

/-- The fields of the `MarkovModel` class. -/
structure MarkovModel where
  normalized : Bool
  states : List String
  rewards : List (String × Int)
  actions : List String
  transitions : List Transition
deriving DecidableEq, Repr

/-- A Python `assert cond, msg`: `.ok` when the condition holds, an
AssertionError carrying `msg` otherwise. -/
def ensure (p : Prop) [Decidable p] (msg : String) : Except String Unit :=
  if p then .ok () else .error msg

/-- Python dictionary access `d[k]` / `d.get(k, default)`: the association
list holds each key once (dictionaries have unique keys). -/
def dict_lookup {β : Type} : List (String × β) → String → Option β
  | [], _ => none
  | kv :: rest, k => if kv.1 = k then some kv.2 else dict_lookup rest k

/-- `self.rewards.get(state, -1)`. -/
def MarkovModel.reward_get (m : MarkovModel) (s : String) : Int :=
  (dict_lookup m.rewards s).getD (-1)

/-- The `rewardless` property: asserts that rewarded and rewardless states are
not mixed, and returns `no_reward`. -/
def MarkovModel.rewardless (m : MarkovModel) : Except String Bool :=
  if m.states.all (fun s => decide (m.reward_get s = -1)) ||
      m.states.all (fun s => !decide (m.reward_get s = -1)) then
    .ok (m.states.all (fun s => decide (m.reward_get s = -1)))
  else .error "Cannot mix rewardless and rewarded models."

/-- `no_action_transitions` computed at the top of `assert_valid`: the source
states of the transitions labelled with the no-action symbol. -/
def MarkovModel.no_action_sources (m : MarkovModel) : List String :=
  (m.transitions.filter (fun t => decide (t.action = no_action_symbol))).map
    (fun t => t.from_state)

/-- The `for` loop of `assert_valid`, checking each transition in order. -/
def MarkovModel.check_transitions (m : MarkovModel) (na_sources : List String) :
    List Transition → Except String Unit
  | [] => .ok ()
  | t :: ts => do
    ensure (t.from_state ∈ m.states) ("State " ++ t.from_state ++ " not defined.")
    ensure (t.to_state ∈ m.states) ("State " ++ t.to_state ++ " not defined.")
    ensure (t.action ∈ m.actions) ("Action " ++ t.action ++ " not defined.")
    ensure (0 ≤ t.weight) "Transition weight must be non-negative."
    if t.action ≠ no_action_symbol then
      ensure (t.from_state ∉ na_sources) "Cannot mix actions with no-action transitions."
    m.check_transitions na_sources ts

/-- `assert_valid`. -/
def MarkovModel.assert_valid (m : MarkovModel) : Except String Unit := do
  let na_sources := m.no_action_sources
  let rl ← m.rewardless
  if !rl then
    ensure (∀ s ∈ m.states, 0 ≤ m.reward_get s) "Rewards must be non-negative."
  m.check_transitions na_sources m.transitions

/-- The transitions sharing the `(from_state, action)` key `(s, a)`. -/
def MarkovModel.group_transitions (m : MarkovModel) (s a : String) : List Transition :=
  m.transitions.filter (fun t => decide (t.from_state = s ∧ t.action = a))

/-- `sum_weights[(s, a)]`: the accumulated weight of the `(s, a)` group (the
Python code accumulates it in a dictionary over one pass; the value is the sum
of the weights of the group). -/
def MarkovModel.sum_weights (m : MarkovModel) (s a : String) : ℚ :=
  ((m.group_transitions s a).map (fun t => t.weight)).sum

/-- The body of the normalization loop: `probability = weight / total` when
`total > 0`, else `0.0`, where `total = sum_weights[(from_state, action)]`. -/
def MarkovModel.norm_weight (m : MarkovModel) (t : Transition) : Transition :=
  if 0 < m.sum_weights t.from_state t.action then
    { t with weight := t.weight / m.sum_weights t.from_state t.action }
  else { t with weight := 0 }

/-- `normalize_transitions`: a no-op when `normalized` is already set, else
each weight is replaced by `weight / total` when the group total is positive
and by `0.0` otherwise, and the flag is set. -/
def MarkovModel.normalize_transitions (m : MarkovModel) : MarkovModel :=
  if m.normalized then m
  else
    { m with
      normalized := true,
      transitions := m.transitions.map m.norm_weight }

/-- The `kind` property. -/
def MarkovModel.kind (m : MarkovModel) : String :=
  if m.transitions.any (fun t => !decide (t.action = no_action_symbol)) then "MDP" else "MC"

/-- `policy.get(s, self.no_action_symbol)`. -/
def policy_get (policy : List (String × String)) (s : String) : String :=
  (dict_lookup policy s).getD no_action_symbol

/-- The outgoing transitions of a state (`[t for t in self.transitions if t[0] == s]`). -/
def MarkovModel.out_transitions (m : MarkovModel) (s : String) : List Transition :=
  m.transitions.filter (fun t => decide (t.from_state = s))

/-- `random.choices(population, weights=weights, k=1)[0]`: raises ValueError
when the total of the weights is not positive, otherwise returns a candidate
of positive weight, selected by the oracle `pick`. -/
def random_choices (population : List String) (weights : List ℚ) (pick : Nat) :
    Except String String :=
  if weights.sum ≤ 0 then .error "Total of weights must be greater than zero"
  else
    let positives := (population.zip weights).filter (fun pw => decide (0 < pw.2))
    match positives[pick % positives.length]? with
    | some pw => .ok pw.1
    | none => .error "population is empty"

/-- The `for _ in range(steps)` loop of `walk`; returns the portion of the
path appended after the start entry.  `i` numbers the steps for the oracle. -/
def MarkovModel.walk_loop (m : MarkovModel) (policy : List (String × String))
    (no_reward : Bool) (pick : Nat → Nat) :
    String → Int → Nat → Nat → Except String (List (String × Int))
  | _, _, _, 0 => .ok []
  | current_state, current_reward, i, steps+1 => do
    let possible_transitions := m.out_transitions current_state
    if possible_transitions.isEmpty then .ok []
    else
      let action := policy_get policy current_state
      let action_transitions := possible_transitions.filter (fun t => decide (t.action = action))
      if action_transitions.isEmpty then .ok []
      else do
        let probabilities := action_transitions.map (fun t => t.weight)
        let next_states := action_transitions.map (fun t => t.to_state)
        let new_reward ←
          if no_reward then Except.ok current_reward
          else
            match dict_lookup m.rewards current_state with
            | some r => Except.ok (current_reward + r)
            | none => Except.error "KeyError"
        let next_state ← random_choices next_states probabilities (pick i)
        let rest ← m.walk_loop policy no_reward pick next_state new_reward (i+1) steps
        Except.ok ((next_state, new_reward) :: rest)

/-- `walk(start_state, steps, policy)`.  The Python `policy` argument is a
dictionary or `None`; the path always starts with `(start_state, 0)`. -/
def MarkovModel.walk (m : MarkovModel) (start_state : String) (steps : Nat)
    (policy : Option (List (String × String))) (pick : Nat → Nat) :
    Except String (List (String × Int)) := do
  ensure (m.normalized = true) "Transitions must be normalized before walking."
  ensure (start_state ∈ m.states) ("Start state " ++ start_state ++ " not defined.")
  ensure (m.kind = "MDP" ∧ policy.isSome = true ∨ m.kind = "MC")
    "Policy must be provided for MDPs."
  let p := policy.getD []
  let no_reward ← m.rewardless
  let rest ← m.walk_loop p no_reward pick start_state 0 0 steps
  Except.ok ((start_state, 0) :: rest)

/-- The intermediate model `mc` built by `markov_chain_from_policy` before
normalization: states and rewards copied, actions reset to the no-action
symbol, and exactly the transitions whose action matches the policy choice at
their source state, re-labelled with the no-action symbol. -/
def MarkovModel.policy_mc0 (m : MarkovModel) (policy : List (String × String)) :
    MarkovModel :=
  { normalized := false,
    states := m.states,
    rewards := m.rewards,
    actions := [no_action_symbol],
    transitions :=
      (m.transitions.filter (fun t => decide (t.action = policy_get policy t.from_state))).map
        (fun t => { t with action := no_action_symbol }) }

/-- `markov_chain_from_policy(policy)`. -/
def MarkovModel.markov_chain_from_policy (m : MarkovModel)
    (policy : List (String × String)) : Except String MarkovModel := do
  ensure (m.kind = "MDP") "Can only generate Markov Chain from MDP."
  m.assert_valid
  (m.policy_mc0 policy).assert_valid
  Except.ok (m.policy_mc0 policy).normalize_transitions

/-- The initial distribution: mass `1.0` at the start state, `0.0` elsewhere. -/
def init_dist (start_state : String) : String → ℚ :=
  fun s => if s = start_state then 1 else 0

/-- The contribution of `from_state` (with current mass `d from_state`) to the
entry `next_dist[s]` in one iteration of the loop of `_MC_iter_accessibility`:
a state of positive mass either keeps its mass (the absorbing end state) or
distributes it along its outgoing transitions; other states contribute 0. -/
def MarkovModel.dist_contrib (m : MarkovModel) (end_state : String) (d : String → ℚ)
    (from_state s : String) : ℚ :=
  if 0 < d from_state then
    if from_state = end_state then (if s = end_state then d from_state else 0)
    else ((m.out_transitions from_state).map
      (fun t => if t.to_state = s then d from_state * t.weight else 0)).sum
  else 0

/-- One iteration of the loop of `_MC_iter_accessibility`: the value of
`next_dist[s]`.  The Python loop runs over the current distribution dictionary,
keyed by the declared states (`m.states.dedup`); the order is irrelevant since
the entries of `next_dist` are accumulated sums. -/
def MarkovModel.dist_step (m : MarkovModel) (end_state : String) (d : String → ℚ) :
    String → ℚ :=
  fun s => (m.states.dedup.map (fun from_state => m.dist_contrib end_state d from_state s)).sum

/-- The `for _ in range(steps)` loop of `_MC_iter_accessibility`. -/
def MarkovModel.dist_iter (m : MarkovModel) (end_state : String) :
    Nat → (String → ℚ) → (String → ℚ)
  | 0, d => d
  | n+1, d => m.dist_iter end_state n (m.dist_step end_state d)

/-- `_MC_iter_accessibility(start_state, end_state, steps)` (the method
mutates `self` through `normalize_transitions`; the embedding runs the loop on
the normalized model, which is what the mutated `self` holds). -/
def MarkovModel.MC_iter_accessibility (m : MarkovModel)
    (start_state end_state : String) (steps : Nat) : Except String ℚ := do
  ensure (m.kind = "MC") "Accessibility can only be computed for Markov Chains."
  m.assert_valid
  let mn := m.normalize_transitions
  ensure (start_state ∈ mn.states) ("Start state " ++ start_state ++ " not defined.")
  ensure (end_state ∈ mn.states) ("End state " ++ end_state ++ " not defined.")
  Except.ok (mn.dist_iter end_state steps (init_dist start_state) end_state)

/-- `iter_accessibility(start_state, end_state, policy, steps)`. -/
def MarkovModel.iter_accessibility (m : MarkovModel) (start_state end_state : String)
    (policy : List (String × String)) (steps : Nat) : Except String ℚ := do
  m.assert_valid
  if m.kind = "MC" then
    m.MC_iter_accessibility start_state end_state steps
  else do
    let mc ← m.markov_chain_from_policy policy
    mc.MC_iter_accessibility start_state end_state steps

/-- `self.rewards[s]` coerced to the rational arithmetic of the reward loop;
the `getD 0` default is never used on a run that does not raise KeyError. -/
def MarkovModel.reward_get0 (m : MarkovModel) (s : String) : ℚ :=
  (((dict_lookup m.rewards s).getD 0 : Int) : ℚ)

/-- One iteration of `_MC_expected_reward` raises KeyError exactly when some
state of positive mass reads a missing reward entry: the absorbing end state
reads `self.rewards[end_state]`, and any other state reads
`self.rewards[from_state]` once per outgoing transition (so only when it has
one). -/
def MarkovModel.reward_step_ok (m : MarkovModel) (end_state : String)
    (pd : String → ℚ) : Prop :=
  ∀ f ∈ m.states.dedup, 0 < pd f →
    (f = end_state ∨ ¬(m.out_transitions f).isEmpty = true) →
    (dict_lookup m.rewards f).isSome = true

instance (m : MarkovModel) (e : String) (pd : String → ℚ) :
    Decidable (m.reward_step_ok e pd) := by
  unfold MarkovModel.reward_step_ok; infer_instance

/-- One iteration of the loop of `_MC_expected_reward`: the pair
`(next_prob_dist, next_reward_dist)` read at a state.  The probability half is
the same computation as in `_MC_iter_accessibility`. -/
def MarkovModel.reward_step (m : MarkovModel) (end_state : String)
    (pd rd : String → ℚ) : (String → ℚ) × (String → ℚ) :=
  (m.dist_step end_state pd,
   fun s =>
     (m.states.dedup.map (fun from_state =>
       let prob := pd from_state
       if 0 < prob then
         if from_state = end_state then
           (if s = end_state then rd end_state + prob * m.reward_get0 end_state else 0)
         else ((m.out_transitions from_state).map
           (fun t => if t.to_state = s then
             (rd from_state + prob * m.reward_get0 from_state) * t.weight else 0)).sum
       else 0)).sum)

/-- The `for _ in range(steps)` loop of `_MC_expected_reward`. -/
def MarkovModel.reward_iter (m : MarkovModel) (end_state : String) :
    Nat → (String → ℚ) → (String → ℚ) → Except String ((String → ℚ) × (String → ℚ))
  | 0, pd, rd => .ok (pd, rd)
  | n+1, pd, rd =>
    if m.reward_step_ok end_state pd then
      m.reward_iter end_state n (m.reward_step end_state pd rd).1
        (m.reward_step end_state pd rd).2
    else .error "KeyError"

/-- `_MC_expected_reward(start_state, end_state, steps)` (note: unlike the
accessibility method it does not call `assert_valid`). -/
def MarkovModel.MC_expected_reward (m : MarkovModel)
    (start_state end_state : String) (steps : Nat) : Except String ℚ := do
  ensure (m.kind = "MC") "Expected reward can only be computed for Markov Chains."
  let mn := m.normalize_transitions
  ensure (start_state ∈ mn.states) ("Start state " ++ start_state ++ " not defined.")
  ensure (end_state ∈ mn.states) ("End state " ++ end_state ++ " not defined.")
  let pr ← mn.reward_iter end_state steps (init_dist start_state) (fun _ => 0)
  Except.ok (if 0 < pr.1 end_state then pr.2 end_state / pr.1 end_state else 0)

/-- `expected_reward(start_state, end_state, policy, steps)`. -/
def MarkovModel.expected_reward (m : MarkovModel) (start_state end_state : String)
    (policy : List (String × String)) (steps : Nat) : Except String ℚ := do
  m.assert_valid
  if m.kind = "MC" then
    m.MC_expected_reward start_state end_state steps
  else do
    let mc ← m.markov_chain_from_policy policy
    mc.MC_expected_reward start_state end_state steps

/-- The literal three-state Markov chain of the specification: states A
(reward 2), B (reward 0), C (reward 0); transitions A→B 1, A→C 1, B→C 1,
C→C 1. -/
def exampleModel : MarkovModel :=
  { normalized := false,
    states := ["A", "B", "C"],
    rewards := [("A", 2), ("B", 0), ("C", 0)],
    actions := [no_action_symbol],
    transitions :=
      [ { from_state := "A", to_state := "B", action := no_action_symbol, weight := 1 },
        { from_state := "A", to_state := "C", action := no_action_symbol, weight := 1 },
        { from_state := "B", to_state := "C", action := no_action_symbol, weight := 1 },
        { from_state := "C", to_state := "C", action := no_action_symbol, weight := 1 } ] }

/-! ### Basic lemmas about the `Except` embedding -/

theorem pure_ok {α : Type} (a : α) : (pure a : Except String α) = .ok a := rfl

theorem bindE_ok {α β : Type} (x : Except String α) (f : α → Except String β) (b : β) :
    (x >>= f = .ok b) ↔ ∃ a, x = .ok a ∧ f a = .ok b := by
  cases x <;> simp [Bind.bind, Except.bind]

theorem error_bind {α β : Type} (e : String) (f : α → Except String β) :
    ((Except.error e : Except String α) >>= f) = .error e := rfl

theorem ensure_ok {p : Prop} [Decidable p] {msg : String} {u : Unit} :
    (ensure p msg = .ok u) ↔ p := by
  unfold ensure
  split
  · simp_all
  · simp_all

theorem ensure_fail {p : Prop} [Decidable p] {msg : String} (h : ¬p) :
    ensure p msg = .error msg := by
  unfold ensure
  exact if_neg h

/-! ### The validity predicate and `assert_valid` -/

/-- All declared states are rewardless (reward defaulting to the -1 sentinel). -/
def MarkovModel.NoRewards (m : MarkovModel) : Prop :=
  ∀ s ∈ m.states, m.reward_get s = -1

/-- All declared states carry a (defined) reward. -/
def MarkovModel.AllRewards (m : MarkovModel) : Prop :=
  ∀ s ∈ m.states, m.reward_get s ≠ -1

/-- The four checks of `assert_valid`, stated declaratively, following the
specification: (a) rewards all undefined, or else all defined and
non-negative; (b) transitions reference declared states and actions; (c)
weights non-negative; (d) no action-labelled transition leaves a state that
also has a no-action transition. -/
def MarkovModel.ValidModel (m : MarkovModel) : Prop :=
  ((∀ s ∈ m.states, m.reward_get s = -1) ∨ (∀ s ∈ m.states, 0 ≤ m.reward_get s)) ∧
  ∀ t ∈ m.transitions, t.from_state ∈ m.states ∧ t.to_state ∈ m.states ∧
    t.action ∈ m.actions ∧ 0 ≤ t.weight ∧
    (t.action ≠ no_action_symbol → t.from_state ∉ m.no_action_sources)

theorem rewardless_ok {m : MarkovModel} {b : Bool} :
    m.rewardless = .ok b ↔
      ((b = true ∧ m.NoRewards) ∨ (b = false ∧ ¬m.NoRewards ∧ m.AllRewards)) := by
  have hNReq : ((m.states.all fun s => decide (m.reward_get s = -1)) = true) ↔ m.NoRewards := by
    simp [List.all_eq_true, MarkovModel.NoRewards]
  have hAReq : ((m.states.all fun s => !decide (m.reward_get s = -1)) = true) ↔ m.AllRewards := by
    simp [List.all_eq_true, MarkovModel.AllRewards]
  unfold MarkovModel.rewardless
  split
  · next h =>
    rcases Bool.or_eq_true _ _ |>.mp h with h1 | h1
    · have hNR := hNReq.mp h1
      simp only [Except.ok.injEq]
      constructor
      · intro hb
        exact Or.inl ⟨by rw [← hb, h1], hNR⟩
      · rintro (⟨hb, _⟩ | ⟨hb, hnr, _⟩)
        · rw [hb]; exact h1
        · exact absurd hNR hnr
    · have hAR := hAReq.mp h1
      simp only [Except.ok.injEq]
      by_cases hNR : m.NoRewards
      · have h2 : (m.states.all fun s => decide (m.reward_get s = -1)) = true := hNReq.mpr hNR
        constructor
        · intro hb
          exact Or.inl ⟨by rw [← hb, h2], hNR⟩
        · rintro (⟨hb, _⟩ | ⟨hb, hnr, _⟩)
          · rw [hb]; exact h2
          · exact absurd hNR hnr
      · have h2 : (m.states.all fun s => decide (m.reward_get s = -1)) = false := by
          rcases Bool.eq_false_or_eq_true (m.states.all fun s => decide (m.reward_get s = -1)) with
            h1 | h1
          · exact absurd (hNReq.mp h1) hNR
          · exact h1
        constructor
        · intro hb
          exact Or.inr ⟨by rw [← hb, h2], hNR, hAR⟩
        · rintro (⟨hb, hnr⟩ | ⟨hb, _, _⟩)
          · exact absurd hnr hNR
          · rw [hb]; exact h2
  · next h =>
    have h2 := Bool.not_eq_true _ |>.mp h
    rw [Bool.or_eq_false_iff] at h2
    simp only [reduceCtorEq, false_iff, not_or, not_and]
    constructor
    · rintro _ hNR
      exact absurd (hNReq.mpr hNR) (by rw [h2.1]; exact Bool.false_ne_true)
    · rintro _ _ hAR
      exact absurd (hAReq.mpr hAR) (by rw [h2.2]; exact Bool.false_ne_true)

theorem bindE_unit_ok {β : Type} (x : Except String Unit) (f : Unit → Except String β) (b : β) :
    (x >>= f = .ok b) ↔ (x = .ok () ∧ f () = .ok b) := by
  cases x with
  | ok u => cases u; simp [Bind.bind, Except.bind]
  | error e => simp [Bind.bind, Except.bind]

theorem check_transitions_ok {m : MarkovModel} {na : List String} {l : List Transition} :
    m.check_transitions na l = .ok () ↔
      ∀ t ∈ l, t.from_state ∈ m.states ∧ t.to_state ∈ m.states ∧
        t.action ∈ m.actions ∧ 0 ≤ t.weight ∧
        (t.action ≠ no_action_symbol → t.from_state ∉ na) := by
  induction l with
  | nil => simp [MarkovModel.check_transitions]
  | cons t ts ih =>
    rw [MarkovModel.check_transitions]
    by_cases hact : t.action ≠ no_action_symbol
    · rw [if_pos hact]
      simp only [bindE_unit_ok, ensure_ok, pure_ok, List.mem_cons, ih]
      constructor
      · rintro ⟨h1, h2, h3, h4, h5, hrest⟩ x hx
        rcases hx with rfl | hx
        · exact ⟨h1, h2, h3, h4, fun _ => h5⟩
        · exact hrest x hx
      · intro hall
        obtain ⟨h1, h2, h3, h4, h5⟩ := hall t (Or.inl rfl)
        exact ⟨h1, h2, h3, h4, h5 hact, fun x hx => hall x (Or.inr hx)⟩
    · rw [if_neg hact]
      simp only [bindE_unit_ok, ensure_ok, pure_ok, List.mem_cons, ih]
      constructor
      · rintro ⟨h1, h2, h3, h4, -, hrest⟩ x hx
        rcases hx with rfl | hx
        · exact ⟨h1, h2, h3, h4, fun hc => absurd hc hact⟩
        · exact hrest x hx
      · intro hall
        obtain ⟨h1, h2, h3, h4, _⟩ := hall t (Or.inl rfl)
        exact ⟨h1, h2, h3, h4, trivial, fun x hx => hall x (Or.inr hx)⟩

theorem assert_valid_ok {m : MarkovModel} :
    m.assert_valid = .ok () ↔ m.ValidModel := by
  unfold MarkovModel.assert_valid MarkovModel.ValidModel
  simp only [bindE_ok]
  constructor
  · rintro ⟨b, hb, hrest⟩
    rcases rewardless_ok.mp hb with ⟨rfl, hNR⟩ | ⟨rfl, hnNR, hAR⟩
    · rw [show (!true) = false from rfl] at hrest
      simp only [Bool.false_eq_true, if_false] at hrest
      exact ⟨Or.inl hNR, check_transitions_ok.mp hrest⟩
    · rw [show (!false) = true from rfl] at hrest
      simp only [if_true] at hrest
      rw [bindE_unit_ok] at hrest
      obtain ⟨hALL, hcheck⟩ := hrest
      exact ⟨Or.inr (ensure_ok.mp hALL), check_transitions_ok.mp hcheck⟩
  · rintro ⟨hrew, htrans⟩
    by_cases hNR : m.NoRewards
    · refine ⟨true, rewardless_ok.mpr (Or.inl ⟨rfl, hNR⟩), ?_⟩
      rw [show (!true) = false from rfl]
      simp only [Bool.false_eq_true, if_false]
      exact check_transitions_ok.mpr htrans
    · have hALL : ∀ s ∈ m.states, 0 ≤ m.reward_get s := by
        rcases hrew with h | h
        · exact absurd h hNR
        · exact h
      have hAR : m.AllRewards := fun s hs => by
        have := hALL s hs
        omega
      refine ⟨false, rewardless_ok.mpr (Or.inr ⟨rfl, hNR, hAR⟩), ?_⟩
      rw [show (!false) = true from rfl]
      simp only [if_true]
      rw [bindE_unit_ok]
      exact ⟨ensure_ok.mpr hALL, check_transitions_ok.mpr htrans⟩

/-! ### Normalization lemmas -/

theorem normalize_states (m : MarkovModel) : m.normalize_transitions.states = m.states := by
  unfold MarkovModel.normalize_transitions
  split <;> rfl

theorem normalize_rewards (m : MarkovModel) : m.normalize_transitions.rewards = m.rewards := by
  unfold MarkovModel.normalize_transitions
  split <;> rfl

theorem normalize_actions (m : MarkovModel) : m.normalize_transitions.actions = m.actions := by
  unfold MarkovModel.normalize_transitions
  split <;> rfl

theorem normalize_normalized (m : MarkovModel) :
    m.normalize_transitions.normalized = true := by
  unfold MarkovModel.normalize_transitions
  split
  · next h => exact h
  · rfl

theorem normalize_of_normalized {m : MarkovModel} (h : m.normalized = true) :
    m.normalize_transitions = m := by
  unfold MarkovModel.normalize_transitions
  rw [if_pos h]

theorem normalize_transitions_of_not {m : MarkovModel} (h : m.normalized = false) :
    m.normalize_transitions.transitions = m.transitions.map m.norm_weight := by
  unfold MarkovModel.normalize_transitions
  rw [h]
  rfl

theorem norm_weight_from (m : MarkovModel) (t : Transition) :
    (m.norm_weight t).from_state = t.from_state := by
  unfold MarkovModel.norm_weight
  split <;> rfl

theorem norm_weight_to (m : MarkovModel) (t : Transition) :
    (m.norm_weight t).to_state = t.to_state := by
  unfold MarkovModel.norm_weight
  split <;> rfl

theorem norm_weight_action (m : MarkovModel) (t : Transition) :
    (m.norm_weight t).action = t.action := by
  unfold MarkovModel.norm_weight
  split <;> rfl

theorem norm_weight_nonneg (m : MarkovModel) (t : Transition) (h : 0 ≤ t.weight) :
    0 ≤ (m.norm_weight t).weight := by
  unfold MarkovModel.norm_weight
  split
  · next hpos => exact div_nonneg h (le_of_lt hpos)
  · next => exact le_refl 0

/-- A filter whose predicate is invariant under a map commutes with it. -/
theorem filter_map_comm {α : Type} (l : List α) (f : α → α) (p : α → Bool)
    (hpf : ∀ x, p (f x) = p x) : (l.map f).filter p = (l.filter p).map f := by
  induction l with
  | nil => rfl
  | cons a l ih =>
    rw [List.map_cons, List.filter_cons, List.filter_cons, hpf]
    rcases Bool.eq_false_or_eq_true (p a) with hpa | hpa
    · simp [hpa, ih]
    · simp [hpa, ih]

theorem list_sum_div {l : List ℚ} {c : ℚ} : (l.map (fun x => x / c)).sum = l.sum / c := by
  induction l with
  | nil => simp
  | cons a l ih => simp [ih, add_div]

theorem group_normalize {m : MarkovModel} (h : m.normalized = false) (s a : String) :
    m.normalize_transitions.group_transitions s a =
      (m.group_transitions s a).map m.norm_weight := by
  unfold MarkovModel.group_transitions
  rw [show m.normalize_transitions.transitions = m.transitions.map m.norm_weight from
    normalize_transitions_of_not h]
  exact filter_map_comm _ _ _ (fun t => by rw [norm_weight_from, norm_weight_action])

theorem mem_group {m : MarkovModel} {s a : String} {t : Transition}
    (ht : t ∈ m.group_transitions s a) : t.from_state = s ∧ t.action = a := by
  unfold MarkovModel.group_transitions at ht
  have := List.of_mem_filter ht
  simpa using this

/-- C1: after `normalize_transitions()` on a not-yet-normalized model, every
transition of a `(source, action)` group carries weight `w / total` when the
group total is positive (so the group weights sum to exactly 1), and weight
`0.0` when the group total is zero. -/
theorem normalize_group_spec (m : MarkovModel) (h : m.normalized = false) (s a : String)
    (hne : m.group_transitions s a ≠ []) :
    (m.normalize_transitions.group_transitions s a =
      (m.group_transitions s a).map (fun t =>
        if 0 < m.sum_weights s a then { t with weight := t.weight / m.sum_weights s a }
        else { t with weight := 0 })) ∧
    (0 < m.sum_weights s a →
      ((m.normalize_transitions.group_transitions s a).map (fun t => t.weight)).sum = 1) ∧
    (m.sum_weights s a = 0 →
      ∀ t ∈ m.normalize_transitions.group_transitions s a, t.weight = 0) := by
  have heq : m.normalize_transitions.group_transitions s a =
      (m.group_transitions s a).map (fun t =>
        if 0 < m.sum_weights s a then { t with weight := t.weight / m.sum_weights s a }
        else { t with weight := 0 }) := by
    rw [group_normalize h s a]
    apply List.map_congr_left
    intro t ht
    obtain ⟨h1, h2⟩ := mem_group ht
    unfold MarkovModel.norm_weight
    rw [h1, h2]
  refine ⟨heq, ?_, ?_⟩
  · intro hpos
    rw [heq]
    simp only [if_pos hpos]
    rw [List.map_map]
    rw [show ((fun t : Transition => t.weight) ∘
        (fun t : Transition => { t with weight := t.weight / m.sum_weights s a })) =
        ((fun x : ℚ => x / m.sum_weights s a) ∘ fun t : Transition => t.weight) from rfl]
    rw [← List.map_map, list_sum_div]
    exact div_self (ne_of_gt hpos)
  · intro hzero t ht
    rw [heq] at ht
    simp only [hzero, lt_self_iff_false, if_false] at ht
    rcases List.mem_map.mp ht with ⟨t0, _, rfl⟩
    rfl

/-! ### `kind` lemmas -/

theorem kind_eq_MC_iff {m : MarkovModel} :
    m.kind = "MC" ↔ ∀ t ∈ m.transitions, t.action = no_action_symbol := by
  unfold MarkovModel.kind
  by_cases h : ∀ t ∈ m.transitions, t.action = no_action_symbol
  · have hany : (m.transitions.any fun t => !decide (t.action = no_action_symbol)) = false := by
      rcases Bool.eq_false_or_eq_true
          (m.transitions.any fun t => !decide (t.action = no_action_symbol)) with h1 | h1
      · obtain ⟨t, ht, hne⟩ := List.any_eq_true.mp h1
        simp only [Bool.not_eq_eq_eq_not, Bool.not_true, decide_eq_false_iff_not] at hne
        exact absurd (h t ht) hne
      · exact h1
    rw [hany]
    simp only [Bool.false_eq_true, if_false]
    exact iff_of_true trivial h
  · have hany : (m.transitions.any fun t => !decide (t.action = no_action_symbol)) = true := by
      push_neg at h
      obtain ⟨t, ht, hne⟩ := h
      exact List.any_eq_true.mpr ⟨t, ht, by simp [hne]⟩
    rw [hany]
    simp only [if_true]
    push_neg at h
    refine iff_of_false (by decide) ?_
    push_neg
    exact h

theorem kind_eq_MDP_iff {m : MarkovModel} :
    m.kind = "MDP" ↔ ¬∀ t ∈ m.transitions, t.action = no_action_symbol := by
  constructor
  · intro hk hall
    have := kind_eq_MC_iff.mpr hall
    rw [hk] at this
    exact absurd this (by decide)
  · intro hne
    unfold MarkovModel.kind
    have hany : (m.transitions.any fun t => !decide (t.action = no_action_symbol)) = true := by
      push_neg at hne
      obtain ⟨t, ht, hta⟩ := hne
      exact List.any_eq_true.mpr ⟨t, ht, by simp [hta]⟩
    rw [hany]
    simp only [if_true]

/-! ### Characterizing the accessibility computation -/

theorem MC_iter_ok_iff {m : MarkovModel} {s e : String} {n : Nat} {p : ℚ} :
    m.MC_iter_accessibility s e n = .ok p ↔
      m.kind = "MC" ∧ m.ValidModel ∧ s ∈ m.states ∧ e ∈ m.states ∧
        m.normalize_transitions.dist_iter e n (init_dist s) e = p := by
  unfold MarkovModel.MC_iter_accessibility
  simp only [bindE_unit_ok, ensure_ok, assert_valid_ok, normalize_states, Except.ok.injEq]

theorem dist_contrib_nonneg {m : MarkovModel} {e : String} {d : String → ℚ}
    (hw : ∀ t ∈ m.transitions, 0 ≤ t.weight) (f x : String) :
    0 ≤ m.dist_contrib e d f x := by
  unfold MarkovModel.dist_contrib
  split
  · next hpos =>
    split
    · next =>
      split
      · exact le_of_lt hpos
      · exact le_refl 0
    · next =>
      apply List.sum_nonneg
      intro q hq
      rcases List.mem_map.mp hq with ⟨t, ht, rfl⟩
      split
      · next =>
        exact mul_nonneg (le_of_lt hpos) (hw t (List.mem_of_mem_filter ht))
      · exact le_refl 0
  · exact le_refl 0

theorem dist_step_nonneg {m : MarkovModel} {e : String} {d : String → ℚ}
    (hw : ∀ t ∈ m.transitions, 0 ≤ t.weight) (x : String) :
    0 ≤ m.dist_step e d x := by
  unfold MarkovModel.dist_step
  apply List.sum_nonneg
  intro q hq
  rcases List.mem_map.mp hq with ⟨f, _, rfl⟩
  exact dist_contrib_nonneg hw f x

theorem dist_contrib_self_end {m : MarkovModel} {e : String} {d : String → ℚ} :
    m.dist_contrib e d e e = if 0 < d e then d e else 0 := by
  unfold MarkovModel.dist_contrib
  split
  · next => rw [if_pos rfl, if_pos rfl]
  · next => rfl

theorem dist_step_le_at_end {m : MarkovModel} {e : String} {d : String → ℚ}
    (hw : ∀ t ∈ m.transitions, 0 ≤ t.weight) (he : e ∈ m.states)
    (hd : ∀ y, 0 ≤ d y) : d e ≤ m.dist_step e d e := by
  have hmem : e ∈ m.states.dedup := List.mem_dedup.mpr he
  have h1 : d e ≤ m.dist_contrib e d e e := by
    rw [dist_contrib_self_end]
    split
    · exact le_refl _
    · next hnp =>
      have : d e = 0 := le_antisymm (not_lt.mp hnp) (hd e)
      rw [this]
  refine le_trans h1 ?_
  unfold MarkovModel.dist_step
  apply List.single_le_sum
  · intro q hq
    rcases List.mem_map.mp hq with ⟨f, _, rfl⟩
    exact dist_contrib_nonneg hw f e
  · exact List.mem_map.mpr ⟨e, hmem, rfl⟩

theorem dist_iter_succ_out (m : MarkovModel) (e : String) :
    ∀ (n : Nat) (d : String → ℚ),
      m.dist_iter e (n+1) d = m.dist_step e (m.dist_iter e n d) := by
  intro n
  induction n with
  | zero => intro d; rfl
  | succ k ih =>
    intro d
    rw [show m.dist_iter e (k+2) d = m.dist_iter e (k+1) (m.dist_step e d) from rfl, ih]
    rfl

theorem dist_iter_nonneg {m : MarkovModel} {e : String}
    (hw : ∀ t ∈ m.transitions, 0 ≤ t.weight) :
    ∀ (n : Nat) (d : String → ℚ), (∀ y, 0 ≤ d y) → ∀ y, 0 ≤ m.dist_iter e n d y := by
  intro n
  induction n with
  | zero => intro d hd y; exact hd y
  | succ k ih =>
    intro d hd y
    rw [show m.dist_iter e (k+1) d = m.dist_iter e k (m.dist_step e d) from rfl]
    exact ih (m.dist_step e d) (fun z => dist_step_nonneg hw z) y

theorem dist_iter_mono_at_end {m : MarkovModel} {e : String} {d : String → ℚ}
    (hw : ∀ t ∈ m.transitions, 0 ≤ t.weight) (he : e ∈ m.states)
    (hd : ∀ y, 0 ≤ d y) (n : Nat) :
    m.dist_iter e n d e ≤ m.dist_iter e (n+1) d e := by
  rw [dist_iter_succ_out]
  exact dist_step_le_at_end hw he (dist_iter_nonneg hw n d hd)

theorem init_dist_nonneg (s : String) : ∀ y, 0 ≤ init_dist s y := by
  intro y
  unfold init_dist
  split
  · exact zero_le_one
  · exact le_refl 0

theorem normalize_weights_nonneg {m : MarkovModel}
    (hw : ∀ t ∈ m.transitions, 0 ≤ t.weight) :
    ∀ t ∈ m.normalize_transitions.transitions, 0 ≤ t.weight := by
  unfold MarkovModel.normalize_transitions
  split
  · exact hw
  · intro t ht
    rcases List.mem_map.mp ht with ⟨t0, ht0, rfl⟩
    exact norm_weight_nonneg m t0 (hw t0 ht0)

theorem MC_iter_mono {m : MarkovModel} {s e : String} {n : Nat} {p q : ℚ}
    (hp : m.MC_iter_accessibility s e n = .ok p)
    (hq : m.MC_iter_accessibility s e (n+1) = .ok q) : p ≤ q := by
  rw [MC_iter_ok_iff] at hp hq
  obtain ⟨_, hv, _, he, hpv⟩ := hp
  obtain ⟨_, _, _, _, hqv⟩ := hq
  rw [← hpv, ← hqv]
  have hw : ∀ t ∈ m.normalize_transitions.transitions, 0 ≤ t.weight :=
    normalize_weights_nonneg (fun t ht => (hv.2 t ht).2.2.2.1)
  have he' : e ∈ m.normalize_transitions.states := by
    rw [normalize_states]
    exact he
  exact dist_iter_mono_at_end hw he' (init_dist_nonneg s) n

/-! ### Policy reduction lemmas -/

/-- The total original weight of the policy-selected transitions leaving `s`. -/
def MarkovModel.policy_out_sum (m : MarkovModel) (policy : List (String × String))
    (s : String) : ℚ :=
  ((m.transitions.filter
      (fun t => decide (t.from_state = s ∧ t.action = policy_get policy s))).map
    (fun t => t.weight)).sum

theorem policy_mc0_valid {m : MarkovModel} (hv : m.ValidModel)
    (π : List (String × String)) : (m.policy_mc0 π).ValidModel := by
  obtain ⟨hrew, htr⟩ := hv
  constructor
  · exact hrew
  · intro t ht
    rcases List.mem_map.mp ht with ⟨t0, ht0, rfl⟩
    have ht0m : t0 ∈ m.transitions := List.mem_of_mem_filter ht0
    obtain ⟨h1, h2, _, h4, _⟩ := htr t0 ht0m
    refine ⟨h1, h2, ?_, h4, ?_⟩
    · exact List.mem_singleton.mpr rfl
    · intro hc
      exact absurd rfl hc

theorem policy_mc0_kind (m : MarkovModel) (π : List (String × String)) :
    (m.policy_mc0 π).kind = "MC" := by
  apply kind_eq_MC_iff.mpr
  intro t ht
  rcases List.mem_map.mp ht with ⟨t0, _, rfl⟩
  rfl

theorem mc0_sum_weights (m : MarkovModel) (π : List (String × String)) (s : String) :
    (m.policy_mc0 π).sum_weights s no_action_symbol = m.policy_out_sum π s := by
  unfold MarkovModel.policy_mc0 MarkovModel.sum_weights MarkovModel.group_transitions
    MarkovModel.policy_out_sum
  dsimp only
  simp only [Bool.decide_and]
  induction m.transitions with
  | nil => rfl
  | cons t ts ih =>
    by_cases hA : t.action = policy_get π t.from_state <;> by_cases hfs : t.from_state = s
    · have hA2 : t.action = policy_get π s := by rw [← hfs]; exact hA
      simp [List.filter_cons, hA, hfs, hA2, ih]
    · simp [List.filter_cons, hA, hfs, ih]
    · have hA2 : ¬t.action = policy_get π s := by rw [← hfs]; exact hA
      simp [List.filter_cons, hA, hfs, hA2, ih]
    · simp [List.filter_cons, hA, hfs, ih]

theorem kind_cases (m : MarkovModel) : m.kind = "MDP" ∨ m.kind = "MC" := by
  unfold MarkovModel.kind
  split
  · exact Or.inl rfl
  · exact Or.inr rfl

theorem kind_normalize (m : MarkovModel) :
    m.normalize_transitions.kind = m.kind := by
  unfold MarkovModel.kind
  have h : (m.normalize_transitions.transitions.any
      (fun t => !decide (t.action = no_action_symbol))) =
      (m.transitions.any (fun t => !decide (t.action = no_action_symbol))) := by
    unfold MarkovModel.normalize_transitions
    split
    · rfl
    · dsimp only
      rw [List.any_map]
      congr 1
      funext t
      simp only [Function.comp_apply, norm_weight_action]
  rw [h]

theorem na_sources_normalize (m : MarkovModel) :
    m.normalize_transitions.no_action_sources = m.no_action_sources := by
  unfold MarkovModel.no_action_sources
  unfold MarkovModel.normalize_transitions
  split
  · rfl
  · dsimp only
    rw [filter_map_comm _ _ _ (fun t => by rw [norm_weight_action]), List.map_map]
    apply List.map_congr_left
    intro t _
    simp only [Function.comp_apply, norm_weight_from]

theorem reward_get_normalize (m : MarkovModel) (s : String) :
    m.normalize_transitions.reward_get s = m.reward_get s := by
  unfold MarkovModel.reward_get
  rw [normalize_rewards]

theorem valid_normalize {m : MarkovModel} (hv : m.ValidModel) :
    m.normalize_transitions.ValidModel := by
  obtain ⟨hrew, htr⟩ := hv
  constructor
  · rcases hrew with h | h
    · left
      intro s hs
      rw [reward_get_normalize]
      exact h s (by rwa [normalize_states] at hs)
    · right
      intro s hs
      rw [reward_get_normalize]
      exact h s (by rwa [normalize_states] at hs)
  · intro t ht
    rw [normalize_states, normalize_actions, na_sources_normalize]
    by_cases hn : m.normalized = true
    · rw [normalize_of_normalized hn] at ht
      exact htr t ht
    · rw [normalize_transitions_of_not (Bool.not_eq_true _ |>.mp hn)] at ht
      rcases List.mem_map.mp ht with ⟨t0, ht0, rfl⟩
      obtain ⟨h1, h2, h3, h4, h5⟩ := htr t0 ht0
      rw [norm_weight_from, norm_weight_to, norm_weight_action]
      exact ⟨h1, h2, h3, norm_weight_nonneg m t0 h4, h5⟩

theorem mcfp_ok_iff {m mc : MarkovModel} {π : List (String × String)} :
    m.markov_chain_from_policy π = .ok mc ↔
      m.kind = "MDP" ∧ m.ValidModel ∧ mc = (m.policy_mc0 π).normalize_transitions := by
  unfold MarkovModel.markov_chain_from_policy
  simp only [bindE_unit_ok, ensure_ok, assert_valid_ok, Except.ok.injEq]
  constructor
  · rintro ⟨h1, h2, _, h4⟩
    exact ⟨h1, h2, h4.symm⟩
  · rintro ⟨h1, h2, h3⟩
    exact ⟨h1, h2, policy_mc0_valid h2 π, h3.symm⟩

theorem policy_mc_transitions (m : MarkovModel) (π : List (String × String)) :
    (m.policy_mc0 π).normalize_transitions.transitions =
      (m.transitions.filter (fun t => decide (t.action = policy_get π t.from_state))).map
        (fun t => { from_state := t.from_state, to_state := t.to_state,
                    action := no_action_symbol,
                    weight := if 0 < m.policy_out_sum π t.from_state then
                      t.weight / m.policy_out_sum π t.from_state else 0 }) := by
  rw [normalize_transitions_of_not rfl]
  rw [show (m.policy_mc0 π).transitions =
      (m.transitions.filter (fun t => decide (t.action = policy_get π t.from_state))).map
        (fun t => { t with action := no_action_symbol }) from rfl]
  rw [List.map_map]
  apply List.map_congr_left
  intro t _
  show (m.policy_mc0 π).norm_weight { t with action := no_action_symbol } = _
  unfold MarkovModel.norm_weight
  rw [show ({ t with action := no_action_symbol } : Transition).from_state = t.from_state
    from rfl]
  rw [show ({ t with action := no_action_symbol } : Transition).action = no_action_symbol
    from rfl]
  rw [mc0_sum_weights]
  split
  · rfl
  · rfl

/-- An MDP example: two states, actions a and b at s0, a no-action self-loop
at s1. -/
def mdpExample : MarkovModel :=
  { normalized := false,
    states := ["s0", "s1"],
    rewards := [("s0", 1), ("s1", 0)],
    actions := [no_action_symbol, "a", "b"],
    transitions :=
      [ { from_state := "s0", to_state := "s0", action := "a", weight := 1 },
        { from_state := "s0", to_state := "s1", action := "a", weight := 1 },
        { from_state := "s0", to_state := "s1", action := "b", weight := 1 },
        { from_state := "s1", to_state := "s1", action := no_action_symbol, weight := 1 } ] }

/-- C2: on a valid MDP, `markov_chain_from_policy` succeeds and returns a
model with the original states and rewards, the action set reset to the
no-action symbol, the `normalized` flag set, and exactly the policy-selected
transitions, re-labelled with the no-action symbol and renormalized by the
selected group totals. -/
theorem markov_chain_from_policy_spec (m : MarkovModel) (π : List (String × String))
    (hv : m.assert_valid = .ok ()) (hk : m.kind = "MDP") :
    ∃ mc, m.markov_chain_from_policy π = .ok mc ∧
      mc.states = m.states ∧ mc.rewards = m.rewards ∧
      mc.actions = [no_action_symbol] ∧ mc.normalized = true ∧
      mc.transitions = (m.transitions.filter
          (fun t => decide (t.action = policy_get π t.from_state))).map
        (fun t => { from_state := t.from_state, to_state := t.to_state,
                    action := no_action_symbol,
                    weight := if 0 < m.policy_out_sum π t.from_state then
                      t.weight / m.policy_out_sum π t.from_state else 0 }) := by
  refine ⟨(m.policy_mc0 π).normalize_transitions,
    mcfp_ok_iff.mpr ⟨hk, assert_valid_ok.mp hv, rfl⟩, ?_, ?_, ?_, ?_, ?_⟩
  · rw [normalize_states]
    rfl
  · rw [normalize_rewards]
    rfl
  · rw [normalize_actions]
    rfl
  · exact normalize_normalized _
  · exact policy_mc_transitions m π

/-- Witness for C2 at the concrete MDP and the policy choosing action a. -/
theorem markov_chain_from_policy_spec_witness :
    ∃ mc, mdpExample.markov_chain_from_policy [("s0", "a")] = .ok mc ∧
      mc.states = mdpExample.states ∧ mc.rewards = mdpExample.rewards ∧
      mc.actions = [no_action_symbol] ∧ mc.normalized = true ∧
      mc.transitions = (mdpExample.transitions.filter
          (fun t => decide (t.action = policy_get [("s0", "a")] t.from_state))).map
        (fun t => { from_state := t.from_state, to_state := t.to_state,
                    action := no_action_symbol,
                    weight := if 0 < mdpExample.policy_out_sum [("s0", "a")] t.from_state then
                      t.weight / mdpExample.policy_out_sum [("s0", "a")] t.from_state
                    else 0 }) := by
  apply markov_chain_from_policy_spec mdpExample [("s0", "a")]
  · simp [MarkovModel.assert_valid, MarkovModel.rewardless, MarkovModel.reward_get,
      MarkovModel.check_transitions, MarkovModel.no_action_sources, ensure_ok,
      bindE_ok, bindE_unit_ok, pure_ok, mdpExample, dict_lookup, no_action_symbol]
  · simp [MarkovModel.kind, mdpExample, no_action_symbol]

theorem iter_accessibility_cases {m : MarkovModel} {s e : String}
    {π : List (String × String)} {n : Nat} {p : ℚ}
    (h : m.iter_accessibility s e π n = .ok p) :
    (m.kind = "MC" ∧ m.MC_iter_accessibility s e n = .ok p) ∨
    (m.kind ≠ "MC" ∧ ∃ mc, m.markov_chain_from_policy π = .ok mc ∧
      mc.MC_iter_accessibility s e n = .ok p) := by
  unfold MarkovModel.iter_accessibility at h
  rw [bindE_unit_ok] at h
  obtain ⟨_, hrest⟩ := h
  by_cases hk : m.kind = "MC"
  · rw [if_pos hk] at hrest
    exact Or.inl ⟨hk, hrest⟩
  · rw [if_neg hk] at hrest
    rw [bindE_ok] at hrest
    obtain ⟨mc, h1, h2⟩ := hrest
    exact Or.inr ⟨hk, mc, h1, h2⟩

/-- C3: for a fixed model, start state, target state, and policy,
`iter_accessibility` is non-decreasing in the step count: whenever the calls
at `n` and `n+1` steps both return values, the former is at most the
latter. -/
theorem iter_accessibility_mono (m : MarkovModel) (s e : String)
    (π : List (String × String)) (n : Nat) (p q : ℚ)
    (hp : m.iter_accessibility s e π n = .ok p)
    (hq : m.iter_accessibility s e π (n+1) = .ok q) : p ≤ q := by
  rcases iter_accessibility_cases hp with ⟨hk, h1⟩ | ⟨hk, mc, hmc, h1⟩
  · rcases iter_accessibility_cases hq with ⟨_, h2⟩ | ⟨hk2, _⟩
    · exact MC_iter_mono h1 h2
    · exact absurd hk hk2
  · rcases iter_accessibility_cases hq with ⟨hk2, _⟩ | ⟨_, mc2, hmc2, h2⟩
    · exact absurd hk2 hk
    · rw [hmc] at hmc2
      injection hmc2 with hmceq
      subst hmceq
      exact MC_iter_mono h1 h2

/-- Witness for C3 on the three-state example: the probability after one step
(1/2) is at most the probability after two steps (1). -/
theorem iter_accessibility_mono_witness : (1 : ℚ)/2 ≤ 1 := by
  apply iter_accessibility_mono exampleModel "A" "C" [] 1 (1/2) 1
  · simp [MarkovModel.iter_accessibility, MarkovModel.MC_iter_accessibility,
      MarkovModel.assert_valid, MarkovModel.rewardless, MarkovModel.reward_get,
      MarkovModel.check_transitions, MarkovModel.no_action_sources, ensure_ok,
      bindE_ok, bindE_unit_ok, pure_ok,
      MarkovModel.kind, MarkovModel.normalize_transitions, MarkovModel.norm_weight,
      MarkovModel.sum_weights, MarkovModel.group_transitions, MarkovModel.dist_iter,
      MarkovModel.dist_step, MarkovModel.dist_contrib,
      MarkovModel.out_transitions, init_dist, exampleModel, dict_lookup,
      no_action_symbol]
    norm_num
  · simp [MarkovModel.iter_accessibility, MarkovModel.MC_iter_accessibility,
      MarkovModel.assert_valid, MarkovModel.rewardless, MarkovModel.reward_get,
      MarkovModel.check_transitions, MarkovModel.no_action_sources, ensure_ok,
      bindE_ok, bindE_unit_ok, pure_ok,
      MarkovModel.kind, MarkovModel.normalize_transitions, MarkovModel.norm_weight,
      MarkovModel.sum_weights, MarkovModel.group_transitions, MarkovModel.dist_iter,
      MarkovModel.dist_step, MarkovModel.dist_contrib,
      MarkovModel.out_transitions, init_dist, exampleModel, dict_lookup,
      no_action_symbol]
    norm_num

/-- C9: on a valid model with declared start and end states,
`iter_accessibility` at 0 steps returns 1.0 when start = end and 0.0
otherwise (for either kind of model). -/
theorem iter_accessibility_zero (m : MarkovModel) (s e : String)
    (π : List (String × String)) (hv : m.assert_valid = .ok ())
    (hs : s ∈ m.states) (he : e ∈ m.states) :
    m.iter_accessibility s e π 0 = .ok (if s = e then 1 else 0) := by
  have hval := assert_valid_ok.mp hv
  have hinit : init_dist s e = (if s = e then 1 else 0 : ℚ) := by
    unfold init_dist
    by_cases hse : s = e
    · rw [if_pos hse.symm, if_pos hse]
    · rw [if_neg (fun hc => hse hc.symm), if_neg hse]
  unfold MarkovModel.iter_accessibility
  rw [bindE_unit_ok]
  refine ⟨hv, ?_⟩
  by_cases hk : m.kind = "MC"
  · rw [if_pos hk, MC_iter_ok_iff]
    exact ⟨hk, hval, hs, he, hinit⟩
  · rw [if_neg hk, bindE_ok]
    have hkMDP : m.kind = "MDP" := by
      rcases kind_cases m with h | h
      · exact h
      · exact absurd h hk
    refine ⟨(m.policy_mc0 π).normalize_transitions,
      mcfp_ok_iff.mpr ⟨hkMDP, hval, rfl⟩, ?_⟩
    rw [MC_iter_ok_iff]
    refine ⟨?_, ?_, ?_, ?_, hinit⟩
    · rw [kind_normalize]
      exact policy_mc0_kind m π
    · exact valid_normalize (policy_mc0_valid hval π)
    · rw [normalize_states]
      exact hs
    · rw [normalize_states]
      exact he

/-- Witness for C9: on the three-state example at 0 steps the probability is
1.0 from A to A. -/
theorem iter_accessibility_zero_witness :
    exampleModel.iter_accessibility "A" "A" [] 0 = .ok 1 := by
  have h := iter_accessibility_zero exampleModel "A" "A" []
    (by simp [MarkovModel.assert_valid, MarkovModel.rewardless, MarkovModel.reward_get,
      MarkovModel.check_transitions, MarkovModel.no_action_sources, ensure_ok,
      bindE_ok, bindE_unit_ok, pure_ok, exampleModel, dict_lookup, no_action_symbol])
    (by simp [exampleModel]) (by simp [exampleModel])
  simpa using h

/-- C4: the literal three-state chain: after normalization A's two transitions
have probability 1/2 each; reaching C from A has probability 0.5 after one
step and 1.0 after two; the expected reward from A to C in one step is 2.0. -/
theorem example_model_analysis :
    exampleModel.normalize_transitions.transitions =
      [ { from_state := "A", to_state := "B", action := no_action_symbol, weight := 1/2 },
        { from_state := "A", to_state := "C", action := no_action_symbol, weight := 1/2 },
        { from_state := "B", to_state := "C", action := no_action_symbol, weight := 1 },
        { from_state := "C", to_state := "C", action := no_action_symbol, weight := 1 } ] ∧
    exampleModel.iter_accessibility "A" "C" [] 1 = .ok (1/2) ∧
    exampleModel.iter_accessibility "A" "C" [] 2 = .ok 1 ∧
    exampleModel.expected_reward "A" "C" [] 1 = .ok 2 := by
  refine ⟨?_, ?_, ?_, ?_⟩
  · simp [MarkovModel.normalize_transitions, MarkovModel.norm_weight,
      MarkovModel.sum_weights, MarkovModel.group_transitions, exampleModel,
      no_action_symbol, Transition.mk.injEq]
    try norm_num
  · simp [MarkovModel.iter_accessibility, MarkovModel.MC_iter_accessibility,
      MarkovModel.assert_valid, MarkovModel.rewardless, MarkovModel.reward_get,
      MarkovModel.check_transitions, MarkovModel.no_action_sources, ensure_ok,
      bindE_ok, bindE_unit_ok, pure_ok,
      MarkovModel.kind, MarkovModel.normalize_transitions, MarkovModel.norm_weight,
      MarkovModel.sum_weights, MarkovModel.group_transitions, MarkovModel.dist_iter,
      MarkovModel.dist_step, MarkovModel.dist_contrib,
      MarkovModel.out_transitions, init_dist, exampleModel, dict_lookup,
      no_action_symbol]
    try norm_num
  · simp [MarkovModel.iter_accessibility, MarkovModel.MC_iter_accessibility,
      MarkovModel.assert_valid, MarkovModel.rewardless, MarkovModel.reward_get,
      MarkovModel.check_transitions, MarkovModel.no_action_sources, ensure_ok,
      bindE_ok, bindE_unit_ok, pure_ok,
      MarkovModel.kind, MarkovModel.normalize_transitions, MarkovModel.norm_weight,
      MarkovModel.sum_weights, MarkovModel.group_transitions, MarkovModel.dist_iter,
      MarkovModel.dist_step, MarkovModel.dist_contrib,
      MarkovModel.out_transitions, init_dist, exampleModel, dict_lookup,
      no_action_symbol]
    try norm_num
  · simp [MarkovModel.expected_reward, MarkovModel.MC_expected_reward,
      MarkovModel.assert_valid, MarkovModel.rewardless, MarkovModel.reward_get,
      MarkovModel.check_transitions, MarkovModel.no_action_sources, ensure_ok,
      bindE_ok, bindE_unit_ok, pure_ok, MarkovModel.reward_iter,
      MarkovModel.reward_step, MarkovModel.reward_step_ok, MarkovModel.reward_get0,
      MarkovModel.kind, MarkovModel.normalize_transitions, MarkovModel.norm_weight,
      MarkovModel.sum_weights, MarkovModel.group_transitions,
      MarkovModel.dist_step, MarkovModel.dist_contrib,
      MarkovModel.out_transitions, init_dist, exampleModel, dict_lookup,
      no_action_symbol]
    try norm_num

/-! ### Mass conservation bounds for the accessibility iteration -/

theorem list_sum_mul_left {l : List ℚ} {c : ℚ} :
    (l.map (fun x => c * x)).sum = c * l.sum := by
  induction l with
  | nil => simp
  | cons a l ih => simp [ih, mul_add]

theorem list_sum_comm {α β : Type} (l1 : List α) (l2 : List β) (g : α → β → ℚ) :
    (l1.map (fun a => (l2.map (g a)).sum)).sum =
      (l2.map (fun b => (l1.map (fun a => g a b)).sum)).sum := by
  induction l1 with
  | nil => simp
  | cons a l ih =>
    have hr : (l2.map (fun b => ((a :: l).map (fun a2 => g a2 b)).sum)) =
        (l2.map (fun b => g a b + (l.map (fun a2 => g a2 b)).sum)) := by
      apply List.map_congr_left
      intro b _
      rw [List.map_cons, List.sum_cons]
    rw [List.map_cons, List.sum_cons, ih, hr, List.sum_map_add]

theorem sum_ite_right_le (l : List String) (hnd : l.Nodup) (y : String) (c : ℚ)
    (hc : 0 ≤ c) : (l.map (fun x => if x = y then c else 0)).sum ≤ c := by
  induction l with
  | nil => simpa using hc
  | cons a l ih =>
    rw [List.nodup_cons] at hnd
    rw [List.map_cons, List.sum_cons]
    by_cases hy : a = y
    · rw [if_pos hy]
      have hzero : (l.map (fun x => if x = y then c else 0)).sum = 0 := by
        apply List.sum_eq_zero
        intro q hq
        rcases List.mem_map.mp hq with ⟨x, hx, rfl⟩
        rw [if_neg]
        intro hxy
        exact hnd.1 (by rwa [show x = a from hxy.trans hy.symm] at hx)
      rw [hzero, add_zero]
    · rw [if_neg hy, zero_add]
      exact ih hnd.2

theorem sum_ite_left_le (l : List String) (hnd : l.Nodup) (y : String) (c : ℚ)
    (hc : 0 ≤ c) : (l.map (fun x => if y = x then c else 0)).sum ≤ c := by
  have h : (l.map (fun x => if y = x then c else 0)) =
      (l.map (fun x => if x = y then c else 0)) := by
    apply List.map_congr_left
    intro x _
    by_cases hxy : x = y
    · rw [if_pos hxy.symm, if_pos hxy]
    · rw [if_neg (fun hc2 => hxy hc2.symm), if_neg hxy]
  rw [h]
  exact sum_ite_right_le l hnd y c hc

theorem contrib_total_le {m : MarkovModel} {e : String} {d : String → ℚ}
    (hw : ∀ t ∈ m.transitions, 0 ≤ t.weight)
    (hout : ∀ f, ((m.out_transitions f).map (fun t => t.weight)).sum ≤ 1)
    (f : String) (hdf : 0 ≤ d f) :
    (m.states.dedup.map (fun x => m.dist_contrib e d f x)).sum ≤ d f := by
  by_cases hpos : 0 < d f
  · by_cases hfe : f = e
    · have heq : (m.states.dedup.map (fun x => m.dist_contrib e d f x)) =
          (m.states.dedup.map (fun x => if x = e then d f else 0)) := by
        apply List.map_congr_left
        intro x _
        unfold MarkovModel.dist_contrib
        rw [if_pos hpos, if_pos hfe]
      rw [heq, ← hfe]
      exact sum_ite_right_le _ (List.nodup_dedup _) f (d f) hdf
    · have heq : (m.states.dedup.map (fun x => m.dist_contrib e d f x)) =
          (m.states.dedup.map (fun x => ((m.out_transitions f).map
            (fun t => if t.to_state = x then d f * t.weight else 0)).sum)) := by
        apply List.map_congr_left
        intro x _
        unfold MarkovModel.dist_contrib
        rw [if_pos hpos, if_neg hfe]
      rw [heq, list_sum_comm]
      have hstep : ∀ t ∈ m.out_transitions f,
          (m.states.dedup.map (fun x => if t.to_state = x then d f * t.weight else 0)).sum ≤
            d f * t.weight := by
        intro t ht
        exact sum_ite_left_le _ (List.nodup_dedup _) t.to_state (d f * t.weight)
          (mul_nonneg hdf (hw t (List.mem_of_mem_filter ht)))
      calc ((m.out_transitions f).map (fun t =>
              (m.states.dedup.map (fun x => if t.to_state = x then d f * t.weight else 0)).sum)).sum
          ≤ ((m.out_transitions f).map (fun t => d f * t.weight)).sum :=
            List.sum_le_sum hstep
        _ = d f * ((m.out_transitions f).map (fun t => t.weight)).sum := by
            rw [show ((fun t : Transition => d f * t.weight)) =
              ((fun w : ℚ => d f * w) ∘ fun t : Transition => t.weight) from rfl]
            rw [← List.map_map, list_sum_mul_left]
        _ ≤ d f * 1 := by
            apply mul_le_mul_of_nonneg_left (hout f) hdf
        _ = d f := mul_one _
  · have heq : (m.states.dedup.map (fun x => m.dist_contrib e d f x)).sum = 0 := by
      apply List.sum_eq_zero
      intro q hq
      rcases List.mem_map.mp hq with ⟨x, _, rfl⟩
      unfold MarkovModel.dist_contrib
      rw [if_neg hpos]
    rw [heq]
    exact hdf

theorem group_eq_out_of_MC {m : MarkovModel}
    (hMC : ∀ t ∈ m.transitions, t.action = no_action_symbol) (f : String) :
    m.group_transitions f no_action_symbol = m.out_transitions f := by
  unfold MarkovModel.group_transitions MarkovModel.out_transitions
  apply List.filter_congr
  intro t ht
  by_cases hf : t.from_state = f
  · simp [hf, hMC t ht]
  · simp [hf]

theorem normalized_out_sum_le_one {m : MarkovModel} (hn : m.normalized = false)
    (hMC : ∀ t ∈ m.transitions, t.action = no_action_symbol)
    (hw : ∀ t ∈ m.transitions, 0 ≤ t.weight) (f : String) :
    ((m.normalize_transitions.out_transitions f).map (fun t => t.weight)).sum ≤ 1 := by
  have hout : m.normalize_transitions.out_transitions f =
      (m.out_transitions f).map m.norm_weight := by
    unfold MarkovModel.out_transitions
    rw [normalize_transitions_of_not hn]
    exact filter_map_comm _ _ _ (fun t => by rw [norm_weight_from])
  rw [hout]
  have hT : m.sum_weights f no_action_symbol =
      ((m.out_transitions f).map (fun t => t.weight)).sum := by
    unfold MarkovModel.sum_weights
    rw [group_eq_out_of_MC hMC]
  by_cases hpos : 0 < m.sum_weights f no_action_symbol
  · have heq : (m.out_transitions f).map m.norm_weight =
        (m.out_transitions f).map (fun t =>
          { t with weight := t.weight / m.sum_weights f no_action_symbol }) := by
      apply List.map_congr_left
      intro t ht
      have hfrom : t.from_state = f := by
        have := List.of_mem_filter ht
        simpa using this
      have hact : t.action = no_action_symbol := hMC t (List.mem_of_mem_filter ht)
      unfold MarkovModel.norm_weight
      rw [hfrom, hact, if_pos hpos]
    rw [heq, List.map_map]
    rw [show ((fun t : Transition => t.weight) ∘ (fun t : Transition =>
        { t with weight := t.weight / m.sum_weights f no_action_symbol })) =
        ((fun x : ℚ => x / m.sum_weights f no_action_symbol) ∘
          fun t : Transition => t.weight) from rfl]
    rw [← List.map_map, list_sum_div, ← hT]
    rw [div_self (ne_of_gt hpos)]
  · have heq : (m.out_transitions f).map m.norm_weight =
        (m.out_transitions f).map (fun t => { t with weight := (0 : ℚ) }) := by
      apply List.map_congr_left
      intro t ht
      have hfrom : t.from_state = f := by
        have := List.of_mem_filter ht
        simpa using this
      have hact : t.action = no_action_symbol := hMC t (List.mem_of_mem_filter ht)
      unfold MarkovModel.norm_weight
      rw [hfrom, hact, if_neg hpos]
    rw [heq, List.map_map]
    have hz : ((m.out_transitions f).map ((fun t : Transition => t.weight) ∘
        (fun t : Transition => { t with weight := (0 : ℚ) }))).sum = 0 := by
      apply List.sum_eq_zero
      intro q hq
      rcases List.mem_map.mp hq with ⟨t, _, rfl⟩
      rfl
    rw [hz]
    exact zero_le_one

theorem dist_step_total_le {m : MarkovModel} {e : String} {d : String → ℚ}
    (hw : ∀ t ∈ m.transitions, 0 ≤ t.weight)
    (hout : ∀ f, ((m.out_transitions f).map (fun t => t.weight)).sum ≤ 1)
    (hd : ∀ y, 0 ≤ d y) :
    (m.states.dedup.map (m.dist_step e d)).sum ≤ (m.states.dedup.map d).sum := by
  unfold MarkovModel.dist_step
  rw [list_sum_comm]
  apply List.sum_le_sum
  intro f _
  exact contrib_total_le hw hout f (hd f)

theorem dist_iter_total_le {m : MarkovModel} {e : String}
    (hw : ∀ t ∈ m.transitions, 0 ≤ t.weight)
    (hout : ∀ f, ((m.out_transitions f).map (fun t => t.weight)).sum ≤ 1) :
    ∀ (n : Nat) (d : String → ℚ), (∀ y, 0 ≤ d y) →
      (m.states.dedup.map (m.dist_iter e n d)).sum ≤ (m.states.dedup.map d).sum := by
  intro n
  induction n with
  | zero => intro d _; exact le_refl _
  | succ k ih =>
    intro d hd
    rw [show m.dist_iter e (k+1) d = m.dist_iter e k (m.dist_step e d) from rfl]
    refine le_trans (ih (m.dist_step e d) (fun y => dist_step_nonneg hw y)) ?_
    exact dist_step_total_le hw hout hd

/-- C10: whenever `_MC_iter_accessibility` returns a value on a (not yet
normalized) model, every iterate of the distribution is non-negative at every
state, its total mass over the declared states is at most 1, and the returned
probability lies in [0, 1]. -/
theorem MC_iter_accessibility_bounds (m : MarkovModel) (s e : String) (n : Nat)
    (p : ℚ) (hn : m.normalized = false)
    (hp : m.MC_iter_accessibility s e n = .ok p) :
    (∀ k y, 0 ≤ m.normalize_transitions.dist_iter e k (init_dist s) y) ∧
    (∀ k, (m.normalize_transitions.states.dedup.map
        (m.normalize_transitions.dist_iter e k (init_dist s))).sum ≤ 1) ∧
    0 ≤ p ∧ p ≤ 1 := by
  rw [MC_iter_ok_iff] at hp
  obtain ⟨hk, hv, hs, he, hpv⟩ := hp
  have hMC : ∀ t ∈ m.transitions, t.action = no_action_symbol := kind_eq_MC_iff.mp hk
  have hw0 : ∀ t ∈ m.transitions, 0 ≤ t.weight := fun t ht => (hv.2 t ht).2.2.2.1
  have hw : ∀ t ∈ m.normalize_transitions.transitions, 0 ≤ t.weight :=
    normalize_weights_nonneg hw0
  have hout : ∀ f, ((m.normalize_transitions.out_transitions f).map
      (fun t => t.weight)).sum ≤ 1 := fun f => normalized_out_sum_le_one hn hMC hw0 f
  have hnn : ∀ k y, 0 ≤ m.normalize_transitions.dist_iter e k (init_dist s) y :=
    fun k y => dist_iter_nonneg hw k (init_dist s) (init_dist_nonneg s) y
  have hinit_total : (m.normalize_transitions.states.dedup.map (init_dist s)).sum ≤ 1 := by
    have : (m.normalize_transitions.states.dedup.map (init_dist s)) =
        (m.normalize_transitions.states.dedup.map (fun y => if y = s then 1 else 0)) := rfl
    rw [this]
    exact sum_ite_right_le _ (List.nodup_dedup _) s 1 zero_le_one
  have htotal : ∀ k, (m.normalize_transitions.states.dedup.map
      (m.normalize_transitions.dist_iter e k (init_dist s))).sum ≤ 1 :=
    fun k => le_trans
      (dist_iter_total_le hw hout k (init_dist s) (init_dist_nonneg s)) hinit_total
  refine ⟨hnn, htotal, ?_, ?_⟩
  · rw [← hpv]
    exact hnn n e
  · rw [← hpv]
    refine le_trans ?_ (htotal n)
    apply List.single_le_sum
    · intro q hq
      rcases List.mem_map.mp hq with ⟨y, _, rfl⟩
      exact hnn n y
    · refine List.mem_map.mpr ⟨e, ?_, rfl⟩
      apply List.mem_dedup.mpr
      rw [normalize_states]
      exact he

/-- Witness for C10: the concrete one-step probability 1/2 on the example
model is within the bounds. -/
theorem MC_iter_accessibility_bounds_witness :
    exampleModel.MC_iter_accessibility "A" "C" 1 = .ok (1/2) ∧
      (0 : ℚ) ≤ 1/2 ∧ (1 : ℚ)/2 ≤ 1 := by
  have hcomp : exampleModel.MC_iter_accessibility "A" "C" 1 = .ok (1/2) := by
    simp [MarkovModel.MC_iter_accessibility,
      MarkovModel.assert_valid, MarkovModel.rewardless, MarkovModel.reward_get,
      MarkovModel.check_transitions, MarkovModel.no_action_sources, ensure_ok,
      bindE_ok, bindE_unit_ok, pure_ok,
      MarkovModel.kind, MarkovModel.normalize_transitions, MarkovModel.norm_weight,
      MarkovModel.sum_weights, MarkovModel.group_transitions, MarkovModel.dist_iter,
      MarkovModel.dist_step, MarkovModel.dist_contrib,
      MarkovModel.out_transitions, init_dist, exampleModel, dict_lookup,
      no_action_symbol]
    try norm_num
  have h := MC_iter_accessibility_bounds exampleModel "A" "C" 1 (1/2) rfl hcomp
  exact ⟨hcomp, h.2.2.1, h.2.2.2⟩

/-- Witness for C1: on the example model the normalized (A, no-action) group
sums to 1. -/
theorem normalize_group_spec_witness :
    ((exampleModel.normalize_transitions.group_transitions "A" no_action_symbol).map
      (fun t => t.weight)).sum = 1 := by
  have hne : exampleModel.group_transitions "A" no_action_symbol ≠ [] := by
    simp [MarkovModel.group_transitions, exampleModel, no_action_symbol]
  have hpos : 0 < exampleModel.sum_weights "A" no_action_symbol := by
    simp [MarkovModel.sum_weights, MarkovModel.group_transitions, exampleModel,
      no_action_symbol]
    try norm_num
  exact (normalize_group_spec exampleModel rfl "A" no_action_symbol hne).2.1 hpos

theorem bindE_error {α β : Type} (x : Except String α) (f : α → Except String β)
    (msg : String) :
    (x >>= f) = .error msg ↔ (x = .error msg ∨ ∃ a, x = .ok a ∧ f a = .error msg) := by
  cases x <;> simp [Bind.bind, Except.bind]

theorem bind_unit_error {β : Type} (x : Except String Unit) (f : Unit → Except String β)
    (msg : String) :
    (x >>= f) = .error msg ↔ (x = .error msg ∨ (x = .ok () ∧ f () = .error msg)) := by
  cases x with
  | ok u => cases u; simp [Bind.bind, Except.bind]
  | error e => simp [Bind.bind, Except.bind]

theorem ensure_error {p : Prop} [Decidable p] {m0 msg : String}
    (h : ensure p m0 = .error msg) : msg = m0 := by
  unfold ensure at h
  split at h
  · exact Except.noConfusion h
  · injection h with h2
    exact h2.symm

theorem rewardless_error {m : MarkovModel} {msg : String}
    (h : m.rewardless = .error msg) :
    msg = "Cannot mix rewardless and rewarded models." := by
  unfold MarkovModel.rewardless at h
  split at h
  · exact Except.noConfusion h
  · injection h with h2
    exact h2.symm

theorem check_transitions_error {m : MarkovModel} {na : List String} {msg : String} :
    ∀ {l : List Transition}, m.check_transitions na l = .error msg →
      (∃ x, msg = "State " ++ x ++ " not defined." ∨
        msg = "Action " ++ x ++ " not defined.") ∨
      msg = "Transition weight must be non-negative." ∨
      msg = "Cannot mix actions with no-action transitions." := by
  intro l
  induction l with
  | nil => intro h; exact Except.noConfusion h
  | cons t ts ih =>
    intro h
    rw [MarkovModel.check_transitions] at h
    by_cases hact : t.action ≠ no_action_symbol
    · rw [if_pos hact] at h
      rcases (bind_unit_error _ _ _).mp h with he | ⟨-, h⟩
      · exact Or.inl ⟨t.from_state, Or.inl (ensure_error he)⟩
      rcases (bind_unit_error _ _ _).mp h with he | ⟨-, h⟩
      · exact Or.inl ⟨t.to_state, Or.inl (ensure_error he)⟩
      rcases (bind_unit_error _ _ _).mp h with he | ⟨-, h⟩
      · exact Or.inl ⟨t.action, Or.inr (ensure_error he)⟩
      rcases (bind_unit_error _ _ _).mp h with he | ⟨-, h⟩
      · exact Or.inr (Or.inl (ensure_error he))
      rcases (bind_unit_error _ _ _).mp h with he | ⟨-, h⟩
      · exact Or.inr (Or.inr (ensure_error he))
      exact ih h
    · rw [if_neg hact] at h
      rcases (bind_unit_error _ _ _).mp h with he | ⟨-, h⟩
      · exact Or.inl ⟨t.from_state, Or.inl (ensure_error he)⟩
      rcases (bind_unit_error _ _ _).mp h with he | ⟨-, h⟩
      · exact Or.inl ⟨t.to_state, Or.inl (ensure_error he)⟩
      rcases (bind_unit_error _ _ _).mp h with he | ⟨-, h⟩
      · exact Or.inl ⟨t.action, Or.inr (ensure_error he)⟩
      rcases (bind_unit_error _ _ _).mp h with he | ⟨-, h⟩
      · exact Or.inr (Or.inl (ensure_error he))
      rcases (bind_unit_error _ _ _).mp h with he | ⟨-, h⟩
      · exact Except.noConfusion he
      exact ih h

theorem assert_valid_error {m : MarkovModel} {msg : String}
    (h : m.assert_valid = .error msg) :
    msg = "Cannot mix rewardless and rewarded models." ∨
    msg = "Rewards must be non-negative." ∨
    msg = "Transition weight must be non-negative." ∨
    msg = "Cannot mix actions with no-action transitions." ∨
    (∃ x, msg = "State " ++ x ++ " not defined." ∨
      msg = "Action " ++ x ++ " not defined.") := by
  unfold MarkovModel.assert_valid at h
  rcases (bindE_error _ _ _).mp h with he | ⟨b, hb, h⟩
  · exact Or.inl (rewardless_error he)
  cases b with
  | true =>
    rw [show (!true) = false from rfl] at h
    simp only [Bool.false_eq_true, if_false] at h
    rcases check_transitions_error h with hn | hw | hm
    · exact Or.inr (Or.inr (Or.inr (Or.inr hn)))
    · exact Or.inr (Or.inr (Or.inl hw))
    · exact Or.inr (Or.inr (Or.inr (Or.inl hm)))
  | false =>
    rw [show (!false) = true from rfl] at h
    simp only [if_true] at h
    rcases (bind_unit_error _ _ _).mp h with he | ⟨-, h⟩
    · exact Or.inr (Or.inl (ensure_error he))
    rcases check_transitions_error h with hn | hw | hm
    · exact Or.inr (Or.inr (Or.inr (Or.inr hn)))
    · exact Or.inr (Or.inr (Or.inl hw))
    · exact Or.inr (Or.inr (Or.inr (Or.inl hm)))

/-- A model whose only defect is a negative transition weight on X -> Y. -/
def badWeightModelA : MarkovModel :=
  { normalized := false,
    states := ["X", "Y"],
    rewards := [("X", 0), ("Y", 0)],
    actions := [no_action_symbol],
    transitions :=
      [ { from_state := "X", to_state := "Y", action := no_action_symbol, weight := -1 } ] }

/-- A different model whose only defect is a negative transition weight on
Y -> X. -/
def badWeightModelB : MarkovModel :=
  { normalized := false,
    states := ["X", "Y"],
    rewards := [("X", 0), ("Y", 0)],
    actions := [no_action_symbol],
    transitions :=
      [ { from_state := "Y", to_state := "X", action := no_action_symbol, weight := -2 } ] }

/-- Counterexample to C6 as stated: the negative-weight check fails with a
fixed message that names no offending entity — two distinct models, with
different offending transitions, raise the identical message. -/
theorem assert_valid_message_not_naming :
    badWeightModelA ≠ badWeightModelB ∧
    badWeightModelA.assert_valid = .error "Transition weight must be non-negative." ∧
    badWeightModelB.assert_valid = .error "Transition weight must be non-negative." := by
  refine ⟨?_, ?_, ?_⟩
  · intro hc
    have h2 := congrArg (fun m : MarkovModel => m.transitions) hc
    simp [badWeightModelA, badWeightModelB, Transition.mk.injEq] at h2
  · simp [MarkovModel.assert_valid, MarkovModel.rewardless, MarkovModel.reward_get,
      MarkovModel.check_transitions, MarkovModel.no_action_sources, ensure,
      badWeightModelA, dict_lookup, no_action_symbol, Bind.bind, Except.bind]
    norm_num
  · simp [MarkovModel.assert_valid, MarkovModel.rewardless, MarkovModel.reward_get,
      MarkovModel.check_transitions, MarkovModel.no_action_sources, ensure,
      badWeightModelB, dict_lookup, no_action_symbol, Bind.bind, Except.bind]
    norm_num

/-- C6 (amended): `assert_valid` returns normally exactly on the models
passing the four declarative checks and raises an error on every other model;
the error message is one of the four fixed strings of the code (which name no
entity) or an undeclared state or action message built from the offending
name. -/
theorem assert_valid_spec (m : MarkovModel) :
    (m.assert_valid = .ok () ↔ m.ValidModel) ∧
    (¬m.ValidModel → ∃ msg, m.assert_valid = .error msg) ∧
    (∀ msg, m.assert_valid = .error msg →
      msg = "Cannot mix rewardless and rewarded models." ∨
      msg = "Rewards must be non-negative." ∨
      msg = "Transition weight must be non-negative." ∨
      msg = "Cannot mix actions with no-action transitions." ∨
      (∃ x, msg = "State " ++ x ++ " not defined." ∨
        msg = "Action " ++ x ++ " not defined.")) := by
  refine ⟨assert_valid_ok, ?_, ?_⟩
  · intro hnv
    cases hav : m.assert_valid with
    | ok u =>
      cases u
      exact absurd (assert_valid_ok.mp hav) hnv
    | error msg => exact ⟨msg, rfl⟩
  · intro msg h
    exact assert_valid_error h

/-! ### Walk lemmas -/

theorem ok_bind {α β : Type} (a : α) (f : α → Except String β) :
    (Except.ok a >>= f) = f a := rfl

theorem walk_loop_length {m : MarkovModel} {policy : List (String × String)}
    {nr : Bool} {pick : Nat → Nat} :
    ∀ (steps : Nat) (cur : String) (cr : Int) (i : Nat) (l : List (String × Int)),
      m.walk_loop policy nr pick cur cr i steps = .ok l → l.length ≤ steps := by
  intro steps
  induction steps with
  | zero =>
    intro cur cr i l h
    rw [show m.walk_loop policy nr pick cur cr i 0 = .ok [] from rfl] at h
    injection h with h
    rw [← h]
    exact Nat.le_refl 0
  | succ k ih =>
    intro cur cr i l h
    rw [MarkovModel.walk_loop] at h
    dsimp only at h
    split at h
    · injection h with h
      rw [← h]
      exact Nat.zero_le _
    · split at h
      · injection h with h
        rw [← h]
        exact Nat.zero_le _
      · split at h
        · rw [ok_bind, bindE_ok] at h
          obtain ⟨nx, _, h3⟩ := h
          rw [bindE_ok] at h3
          obtain ⟨rest, hrec, h4⟩ := h3
          injection h4 with h4
          rw [← h4]
          simp only [List.length_cons]
          exact Nat.succ_le_succ (ih nx cr (i+1) rest hrec)
        · split at h
          · next r _ =>
            rw [ok_bind, bindE_ok] at h
            obtain ⟨nx, _, h3⟩ := h
            rw [bindE_ok] at h3
            obtain ⟨rest, hrec, h4⟩ := h3
            injection h4 with h4
            rw [← h4]
            simp only [List.length_cons]
            exact Nat.succ_le_succ (ih nx (cr + r) (i+1) rest hrec)
          · exact Except.noConfusion h

theorem walk_loop_snd_const {m : MarkovModel} {policy : List (String × String)}
    {pick : Nat → Nat} :
    ∀ (steps : Nat) (cur : String) (cr : Int) (i : Nat) (l : List (String × Int)),
      m.walk_loop policy true pick cur cr i steps = .ok l → ∀ pr ∈ l, pr.2 = cr := by
  intro steps
  induction steps with
  | zero =>
    intro cur cr i l h
    rw [show m.walk_loop policy true pick cur cr i 0 = .ok [] from rfl] at h
    injection h with h
    rw [← h]
    intro pr hpr
    exact absurd hpr (List.not_mem_nil pr)
  | succ k ih =>
    intro cur cr i l h
    rw [MarkovModel.walk_loop] at h
    dsimp only at h
    split at h
    · injection h with h
      rw [← h]
      intro pr hpr
      exact absurd hpr (List.not_mem_nil pr)
    · split at h
      · injection h with h
        rw [← h]
        intro pr hpr
        exact absurd hpr (List.not_mem_nil pr)
      · split at h
        · rw [ok_bind, bindE_ok] at h
          obtain ⟨nx, _, h3⟩ := h
          rw [bindE_ok] at h3
          obtain ⟨rest, hrec, h4⟩ := h3
          injection h4 with h4
          rw [← h4]
          intro pr hpr
          rcases List.mem_cons.mp hpr with rfl | hpr
          · rfl
          · exact ih nx cr (i+1) rest hrec pr hpr
        · next hcontra => exact absurd rfl hcontra

theorem walk_loop_chain {m : MarkovModel} {policy : List (String × String)}
    {pick : Nat → Nat} :
    ∀ (steps : Nat) (cur : String) (cr : Int) (i : Nat) (l : List (String × Int)),
      m.walk_loop policy false pick cur cr i steps = .ok l →
      List.Chain' (fun p q : String × Int =>
        ∃ r, dict_lookup m.rewards p.1 = some r ∧ q.2 = p.2 + r) ((cur, cr) :: l) := by
  intro steps
  induction steps with
  | zero =>
    intro cur cr i l h
    rw [show m.walk_loop policy false pick cur cr i 0 = .ok [] from rfl] at h
    injection h with h
    rw [← h]
    exact List.chain'_singleton _
  | succ k ih =>
    intro cur cr i l h
    rw [MarkovModel.walk_loop] at h
    dsimp only at h
    split at h
    · injection h with h
      rw [← h]
      exact List.chain'_singleton _
    · split at h
      · injection h with h
        rw [← h]
        exact List.chain'_singleton _
      · split at h
        · next hcontra => exact absurd hcontra (Bool.false_ne_true)
        · split at h
          · next r heq =>
            rw [ok_bind, bindE_ok] at h
            obtain ⟨nx, _, h3⟩ := h
            rw [bindE_ok] at h3
            obtain ⟨rest, hrec, h4⟩ := h3
            injection h4 with h4
            rw [← h4]
            exact List.chain'_cons.mpr ⟨⟨r, heq, rfl⟩, ih nx (cr + r) (i+1) rest hrec⟩
          · exact Except.noConfusion h

/-- C8 (amended): a successful walk returns a path of length at most
`steps + 1` starting at `(start_state, 0)`; the second components carry the
running accumulated reward (each step adds the reward of the state being
left), and on a rewardless model they all stay 0 (they are present, not
omitted). -/
theorem walk_path_spec (m : MarkovModel) (start : String) (n : Nat)
    (policy : Option (List (String × String))) (pick : Nat → Nat)
    (path : List (String × Int)) (h : m.walk start n policy pick = .ok path) :
    path.length ≤ n + 1 ∧ path.head? = some (start, 0) ∧
    (m.rewardless = .ok true → ∀ pr ∈ path, pr.2 = 0) ∧
    (m.rewardless = .ok false → List.Chain'
      (fun p q : String × Int =>
        ∃ r, dict_lookup m.rewards p.1 = some r ∧ q.2 = p.2 + r) path) := by
  unfold MarkovModel.walk at h
  simp only [bindE_unit_ok, bindE_ok, ensure_ok] at h
  obtain ⟨-, -, -, -, -, -, b, hb, rest, hloop, hpath⟩ := h
  injection hpath with hpath
  refine ⟨?_, ?_, ?_, ?_⟩
  · rw [← hpath]
    simp only [List.length_cons]
    exact Nat.succ_le_succ (walk_loop_length n start 0 0 rest hloop)
  · rw [← hpath]
    rfl
  · intro hrl
    rw [hb] at hrl
    injection hrl with hrl
    rw [← hpath]
    intro pr hpr
    rcases List.mem_cons.mp hpr with rfl | hpr
    · rfl
    · rw [hrl] at hloop
      exact walk_loop_snd_const n start 0 0 rest hloop pr hpr
  · intro hrl
    rw [hb] at hrl
    injection hrl with hrl
    rw [← hpath]
    rw [hrl] at hloop
    exact walk_loop_chain n start 0 0 rest hloop

/-- A rewardless two-state chain (already normalized): A -> B with
probability 1. -/
def rlModel : MarkovModel :=
  { normalized := true,
    states := ["A", "B"],
    rewards := [],
    actions := [no_action_symbol],
    transitions :=
      [ { from_state := "A", to_state := "B", action := no_action_symbol, weight := 1 } ] }

/-- A normalized model whose only transition group had raw weight 0, so its
probability normalized to 0: A -> B with probability 0. -/
def deadModel : MarkovModel :=
  { normalized := true,
    states := ["A", "B"],
    rewards := [("A", 0), ("B", 0)],
    actions := [no_action_symbol],
    transitions :=
      [ { from_state := "A", to_state := "B", action := no_action_symbol, weight := 0 } ] }

/-- Counterexample to C8 as stated: on a rewardless model the walk still
returns reward values (each visited state is paired with the reward 0), it
does not return a reward-free result. -/
theorem walk_rewardless_returns_reward_values :
    rlModel.rewardless = .ok true ∧
    rlModel.walk "A" 1 none (fun _ => 0) = .ok [("A", 0), ("B", 0)] := by
  constructor
  · simp [MarkovModel.rewardless, MarkovModel.reward_get, rlModel, dict_lookup]
  · simp [MarkovModel.walk, MarkovModel.walk_loop, MarkovModel.rewardless,
      MarkovModel.reward_get, MarkovModel.out_transitions, MarkovModel.kind,
      random_choices, policy_get, ensure, rlModel, dict_lookup, no_action_symbol,
      Bind.bind, Except.bind]
    norm_num

/-- Counterexample to C7 as stated: at a state whose outgoing transitions all
have probability 0 under the selected action, the walk raises the ValueError
of random.choices instead of ending the path early. -/
theorem walk_zero_total_raises :
    deadModel.normalized = true ∧
    deadModel.walk "A" 1 none (fun _ => 0) =
      .error "Total of weights must be greater than zero" := by
  constructor
  · rfl
  · simp [MarkovModel.walk, MarkovModel.walk_loop, MarkovModel.rewardless,
      MarkovModel.reward_get, MarkovModel.out_transitions, MarkovModel.kind,
      random_choices, policy_get, ensure, deadModel, dict_lookup, no_action_symbol,
      Bind.bind, Except.bind]

/-- C7 (amended): on a normalized model, a walk whose start state has no
outgoing transitions, or none matching the selected action, ends immediately
and returns the one-entry path (strictly shorter than steps+2); but when
matching transitions exist whose probabilities total 0 (a zero-weight group
normalized to all-zero probabilities), the underlying random draw raises the
ValueError of random.choices instead of ending the path early. -/
theorem walk_dead_end_spec (m : MarkovModel) (start : String) (steps : Nat)
    (policy : Option (List (String × String))) (pick : Nat → Nat) (b : Bool)
    (h1 : m.normalized = true) (h2 : start ∈ m.states)
    (h3 : m.kind = "MDP" ∧ policy.isSome = true ∨ m.kind = "MC")
    (hb : m.rewardless = .ok b) :
    ((m.out_transitions start = [] ∨
      (m.out_transitions start).filter
        (fun t => decide (t.action = policy_get (policy.getD []) start)) = []) →
      m.walk start (steps+1) policy pick = .ok [(start, 0)]) ∧
    (((m.out_transitions start).filter
        (fun t => decide (t.action = policy_get (policy.getD []) start))) ≠ [] →
      ((((m.out_transitions start).filter
        (fun t => decide (t.action = policy_get (policy.getD []) start))).map
          (fun t => t.weight)).sum ≤ 0) →
      (b = true ∨ (dict_lookup m.rewards start).isSome = true) →
      m.walk start (steps+1) policy pick =
        .error "Total of weights must be greater than zero") := by
  have e1 : ensure (m.normalized = true)
      "Transitions must be normalized before walking." = .ok () := ensure_ok.mpr h1
  have e2 : ensure (start ∈ m.states)
      ("Start state " ++ start ++ " not defined.") = .ok () := ensure_ok.mpr h2
  have e3 : ensure (m.kind = "MDP" ∧ policy.isSome = true ∨ m.kind = "MC")
      "Policy must be provided for MDPs." = .ok () := ensure_ok.mpr h3
  have hwalk : m.walk start (steps+1) policy pick =
      (m.walk_loop (policy.getD []) b pick start 0 0 (steps+1)) >>=
        fun rest => Except.ok ((start, 0) :: rest) := by
    unfold MarkovModel.walk
    rw [e1, ok_bind, e2, ok_bind, e3, ok_bind, hb, ok_bind]
  constructor
  · intro hdead
    rw [hwalk]
    have hloop : m.walk_loop (policy.getD []) b pick start 0 0 (steps+1) = .ok [] := by
      rw [MarkovModel.walk_loop]
      dsimp only
      by_cases houtE : (m.out_transitions start).isEmpty = true
      · rw [if_pos houtE]
      · rw [if_neg houtE]
        rcases hdead with hout | hact
        · exact absurd (by rw [hout]; rfl) houtE
        · rw [if_pos (by rw [hact]; rfl)]
    rw [hloop, ok_bind]
  · intro hne hsum hrew
    rw [hwalk]
    have houtne : ¬(m.out_transitions start).isEmpty = true := by
      intro hc
      rw [List.isEmpty_iff.mp hc] at hne
      exact hne rfl
    have hatsne : ¬((m.out_transitions start).filter
        (fun t => decide (t.action = policy_get (policy.getD []) start))).isEmpty = true := by
      intro hc
      exact hne (List.isEmpty_iff.mp hc)
    have hrc : random_choices
        (((m.out_transitions start).filter
          (fun t => decide (t.action = policy_get (policy.getD []) start))).map
            (fun t => t.to_state))
        (((m.out_transitions start).filter
          (fun t => decide (t.action = policy_get (policy.getD []) start))).map
            (fun t => t.weight)) (pick 0) =
        .error "Total of weights must be greater than zero" := by
      unfold random_choices
      rw [if_pos hsum]
    have hloop : m.walk_loop (policy.getD []) b pick start 0 0 (steps+1) =
        .error "Total of weights must be greater than zero" := by
      rw [MarkovModel.walk_loop]
      dsimp only
      rw [if_neg houtne, if_neg hatsne]
      cases b with
      | true =>
        rw [if_pos rfl, ok_bind, hrc, error_bind]
      | false =>
        rw [if_neg Bool.false_ne_true]
        have hrsome : (dict_lookup m.rewards start).isSome = true := by
          rcases hrew with hc | hs
          · exact absurd hc Bool.false_ne_true
          · exact hs
        obtain ⟨r, hr⟩ := Option.isSome_iff_exists.mp hrsome
        rw [hr]
        dsimp only
        rw [ok_bind, hrc, error_bind]
    rw [hloop, error_bind]

/-- Witness for C7: from the dead-end state B (no outgoing transitions) the
walk ends immediately with the single-entry path. -/
theorem walk_dead_end_spec_witness :
    deadModel.walk "B" 1 none (fun _ => 0) = .ok [("B", 0)] := by
  have h := walk_dead_end_spec deadModel "B" 0 none (fun _ => 0) false rfl
    (by simp [deadModel])
    (Or.inr (by simp [MarkovModel.kind, deadModel, no_action_symbol]))
    (by simp [MarkovModel.rewardless, MarkovModel.reward_get, deadModel, dict_lookup])
  exact h.1 (Or.inl (by simp [MarkovModel.out_transitions, deadModel]))

/-- Witness for C8 on the rewardless model: the returned path has length at
most 2 and starts at (A, 0). -/
theorem walk_path_spec_witness :
    ∃ path, rlModel.walk "A" 1 none (fun _ => 0) = .ok path ∧
      path.length ≤ 2 ∧ path.head? = some ("A", 0) := by
  have hw : rlModel.walk "A" 1 none (fun _ => 0) = .ok [("A", 0), ("B", 0)] := by
    simp [MarkovModel.walk, MarkovModel.walk_loop, MarkovModel.rewardless,
      MarkovModel.reward_get, MarkovModel.out_transitions, MarkovModel.kind,
      random_choices, policy_get, ensure, rlModel, dict_lookup, no_action_symbol,
      Bind.bind, Except.bind]
    norm_num
  have h := walk_path_spec rlModel "A" 1 none (fun _ => 0) [("A", 0), ("B", 0)] hw
  exact ⟨[("A", 0), ("B", 0)], hw, h.1, h.2.1⟩

/-! ### Totality of the analysis operations on valid inputs -/

theorem iter_accessibility_total {m : MarkovModel} {s e : String}
    (hv : m.assert_valid = .ok ()) (hs : s ∈ m.states) (he : e ∈ m.states)
    (π : List (String × String)) (n : Nat) :
    ∃ q, m.iter_accessibility s e π n = .ok q := by
  have hval := assert_valid_ok.mp hv
  unfold MarkovModel.iter_accessibility
  by_cases hk : m.kind = "MC"
  · refine ⟨m.normalize_transitions.dist_iter e n (init_dist s) e, ?_⟩
    rw [bindE_unit_ok]
    refine ⟨hv, ?_⟩
    rw [if_pos hk, MC_iter_ok_iff]
    exact ⟨hk, hval, hs, he, rfl⟩
  · have hkMDP : m.kind = "MDP" := by
      rcases kind_cases m with h | h
      · exact h
      · exact absurd h hk
    refine ⟨(m.policy_mc0 π).normalize_transitions.normalize_transitions.dist_iter e n
      (init_dist s) e, ?_⟩
    rw [bindE_unit_ok]
    refine ⟨hv, ?_⟩
    rw [if_neg hk, bindE_ok]
    refine ⟨(m.policy_mc0 π).normalize_transitions,
      mcfp_ok_iff.mpr ⟨hkMDP, hval, rfl⟩, ?_⟩
    rw [MC_iter_ok_iff]
    refine ⟨?_, ?_, ?_, ?_, rfl⟩
    · rw [kind_normalize]
      exact policy_mc0_kind m π
    · exact valid_normalize (policy_mc0_valid hval π)
    · rw [normalize_states]
      exact hs
    · rw [normalize_states]
      exact he

theorem reward_iter_total {m : MarkovModel} {e : String}
    (hrew : ∀ f ∈ m.states.dedup, (dict_lookup m.rewards f).isSome = true) :
    ∀ (n : Nat) (pd rd : String → ℚ), ∃ pr, m.reward_iter e n pd rd = .ok pr := by
  intro n
  induction n with
  | zero => intro pd rd; exact ⟨(pd, rd), rfl⟩
  | succ k ih =>
    intro pd rd
    have hok : m.reward_step_ok e pd := fun f hf _ _ => hrew f hf
    rw [show m.reward_iter e (k+1) pd rd =
      (if m.reward_step_ok e pd then m.reward_iter e k (m.reward_step e pd rd).1
        (m.reward_step e pd rd).2 else .error "KeyError") from rfl]
    rw [if_pos hok]
    exact ih _ _

theorem MC_expected_reward_total {M : MarkovModel} {s e : String} (n : Nat)
    (hk : M.kind = "MC") (hs : s ∈ M.states) (he : e ∈ M.states)
    (hrew : ∀ f ∈ M.states, (dict_lookup M.rewards f).isSome = true) :
    ∃ q, M.MC_expected_reward s e n = .ok q := by
  have hrew2 : ∀ f ∈ M.normalize_transitions.states.dedup,
      (dict_lookup M.normalize_transitions.rewards f).isSome = true := by
    intro f hf
    rw [normalize_rewards]
    apply hrew
    rw [← normalize_states M]
    exact List.mem_dedup.mp hf
  obtain ⟨pr, hpr⟩ := reward_iter_total hrew2 n (init_dist s) (fun _ => 0)
  refine ⟨if 0 < pr.1 e then pr.2 e / pr.1 e else 0, ?_⟩
  unfold MarkovModel.MC_expected_reward
  simp only [bindE_unit_ok, bindE_ok, ensure_ok, normalize_states, Except.ok.injEq]
  exact ⟨(), hk, (), hs, (), he, pr, hpr, rfl⟩

theorem expected_reward_total {m : MarkovModel} {s e : String}
    (hv : m.assert_valid = .ok ()) (hs : s ∈ m.states) (he : e ∈ m.states)
    (hrew : ∀ f ∈ m.states, (dict_lookup m.rewards f).isSome = true)
    (π : List (String × String)) (n : Nat) :
    ∃ q, m.expected_reward s e π n = .ok q := by
  have hval := assert_valid_ok.mp hv
  unfold MarkovModel.expected_reward
  by_cases hk : m.kind = "MC"
  · obtain ⟨q, hq⟩ := MC_expected_reward_total n hk hs he hrew
    refine ⟨q, ?_⟩
    rw [bindE_unit_ok]
    refine ⟨hv, ?_⟩
    rw [if_pos hk]
    exact hq
  · have hkMDP : m.kind = "MDP" := by
      rcases kind_cases m with h | h
      · exact h
      · exact absurd h hk
    have hmc : m.markov_chain_from_policy π =
        .ok ((m.policy_mc0 π).normalize_transitions) :=
      mcfp_ok_iff.mpr ⟨hkMDP, hval, rfl⟩
    have hkmc : (m.policy_mc0 π).normalize_transitions.kind = "MC" := by
      rw [kind_normalize]
      exact policy_mc0_kind m π
    have hsmc : s ∈ (m.policy_mc0 π).normalize_transitions.states := by
      rw [normalize_states]
      exact hs
    have hemc : e ∈ (m.policy_mc0 π).normalize_transitions.states := by
      rw [normalize_states]
      exact he
    have hrewmc : ∀ f ∈ (m.policy_mc0 π).normalize_transitions.states,
        (dict_lookup (m.policy_mc0 π).normalize_transitions.rewards f).isSome = true := by
      intro f hf
      rw [normalize_rewards]
      rw [normalize_states] at hf
      exact hrew f hf
    obtain ⟨q, hq⟩ := MC_expected_reward_total n hkmc hsmc hemc hrewmc
    refine ⟨q, ?_⟩
    rw [bindE_unit_ok]
    refine ⟨hv, ?_⟩
    rw [if_neg hk, bindE_ok]
    exact ⟨(m.policy_mc0 π).normalize_transitions, hmc, hq⟩

/-- Counterexample to C5 as stated: on the example model, still not
normalized, `iter_accessibility` succeeds and returns a probability instead of
failing a precondition. -/
theorem iter_accessibility_succeeds_unnormalized :
    exampleModel.normalized = false ∧
    exampleModel.iter_accessibility "A" "C" [] 1 = .ok (1/2) := by
  constructor
  · rfl
  · simp [MarkovModel.iter_accessibility, MarkovModel.MC_iter_accessibility,
      MarkovModel.assert_valid, MarkovModel.rewardless, MarkovModel.reward_get,
      MarkovModel.check_transitions, MarkovModel.no_action_sources, ensure_ok,
      bindE_ok, bindE_unit_ok, pure_ok,
      MarkovModel.kind, MarkovModel.normalize_transitions, MarkovModel.norm_weight,
      MarkovModel.sum_weights, MarkovModel.group_transitions, MarkovModel.dist_iter,
      MarkovModel.dist_step, MarkovModel.dist_contrib,
      MarkovModel.out_transitions, init_dist, exampleModel, dict_lookup,
      no_action_symbol]
    norm_num

/-- C5 (amended): of the four operations, only `walk` checks the `normalized`
flag — on a non-normalized model it fails with the precondition message, while
`iter_accessibility`, `expected_reward` (given rewards for every state) and
`markov_chain_from_policy` succeed on valid inputs, normalizing internally. -/
theorem unnormalized_behavior (m : MarkovModel) (s e : String)
    (π : List (String × String)) (policy : Option (List (String × String)))
    (k : Nat) (pick : Nat → Nat) (hn : m.normalized = false) :
    m.walk s k policy pick = .error "Transitions must be normalized before walking." ∧
    (m.assert_valid = .ok () → s ∈ m.states → e ∈ m.states →
      (∃ q, m.iter_accessibility s e π k = .ok q) ∧
      ((∀ f ∈ m.states, (dict_lookup m.rewards f).isSome = true) →
        ∃ q, m.expected_reward s e π k = .ok q)) ∧
    (m.assert_valid = .ok () → m.kind = "MDP" →
      ∃ mc, m.markov_chain_from_policy π = .ok mc) := by
  refine ⟨?_, ?_, ?_⟩
  · unfold MarkovModel.walk
    rw [ensure_fail (by simp [hn]), error_bind]
  · intro hv hs he
    exact ⟨iter_accessibility_total hv hs he π k,
      fun hrew => expected_reward_total hv hs he hrew π k⟩
  · intro hv hk
    exact ⟨(m.policy_mc0 π).normalize_transitions,
      mcfp_ok_iff.mpr ⟨hk, assert_valid_ok.mp hv, rfl⟩⟩

/-- Witness for C5 (amended) at the concrete non-normalized MDP. -/
theorem unnormalized_behavior_witness :
    mdpExample.walk "s0" 1 (some [("s0", "a")]) (fun _ => 0) =
      .error "Transitions must be normalized before walking." ∧
    (∃ q, mdpExample.iter_accessibility "s0" "s1" [("s0", "a")] 1 = .ok q) ∧
    (∃ mc, mdpExample.markov_chain_from_policy [("s0", "a")] = .ok mc) := by
  have hv : mdpExample.assert_valid = .ok () := by
    simp [MarkovModel.assert_valid, MarkovModel.rewardless, MarkovModel.reward_get,
      MarkovModel.check_transitions, MarkovModel.no_action_sources, ensure_ok,
      bindE_ok, bindE_unit_ok, pure_ok, mdpExample, dict_lookup, no_action_symbol]
  have hk : mdpExample.kind = "MDP" := by
    simp [MarkovModel.kind, mdpExample, no_action_symbol]
  have h := unnormalized_behavior mdpExample "s0" "s1" [("s0", "a")]
    (some [("s0", "a")]) 1 (fun _ => 0) rfl
  exact ⟨h.1, (h.2.1 hv (by simp [mdpExample]) (by simp [mdpExample])).1,
    h.2.2 hv hk⟩
